import Mathlib

/-!
Verification of the gustoautomate repository against its natural-language
specification.  Each section embeds one part of the JavaScript source as
executable Lean definitions and proves (or refutes) the frozen claims about
it.  The embedding is shallow: pure functions become Lean functions, the
stateful cache becomes explicit state passing, operations that can throw
become `Except String`-valued, and browser interaction is abstracted into
per-row environments supplying the outcomes of the external calls.
-/

namespace GustoAutomate

/-! ## Name parsing (`src/sheets.js`, `parseFullName`)

`parseFullName` does `fullName.trim().split(/\s+/)` and then inspects the
token list.  In JavaScript, `"".split(/\s+/)` yields `[""]`, and a trimmed
non-empty string splits into its maximal non-whitespace runs, so
`trim(s).split(/\s+/)` equals: the whitespace-delimited tokens of `s` when
there is at least one, and `[""]` otherwise.  `jsWs` models the ASCII part
of the JavaScript `\s` class (the source data never contains the Unicode
space characters that `\s` additionally matches). -/

def jsWs (c : Char) : Bool :=
  c = ' ' ∨ c = '\t' ∨ c = '\n' ∨ c = '\r' ∨ c = '\x0b' ∨ c = '\x0c'

/-- Maximal runs of non-whitespace characters, accumulator-style. -/
def wordsAux : List Char → List Char → List (List Char)
  | [], acc => if acc.isEmpty then [] else [acc.reverse]
  | c :: cs, acc =>
    if jsWs c then
      if acc.isEmpty then wordsAux cs [] else acc.reverse :: wordsAux cs []
    else
      wordsAux cs (c :: acc)

/-- The whitespace-delimited tokens of a string (empty tokens dropped). -/
def jsTokens (s : String) : List String :=
  (wordsAux s.data []).map (fun l => String.mk l)

/-- Model of `fullName.trim().split(/\s+/)` in JavaScript: the token list,
except that a string with no token yields `[""]`. -/
def jsSplitParts (s : String) : List String :=
  let t := jsTokens s
  if t = [] then [""] else t

/-- ASCII lower-casing, modelling `String.prototype.toLowerCase` on the
ASCII strings compared by the source. -/
def lowerStr (s : String) : String := String.mk (s.data.map Char.toLower)

/-- `const SUFFIXES = new Set([...])` in `src/sheets.js`. -/
def SUFFIXES : List String :=
  ["jr", "jr.", "sr", "sr.", "ii", "iii", "iv", "v", "vi", "vii", "viii"]

/-- `const PARTICLES = new Set([...])` inside `parseFullName`. -/
def PARTICLES : List String :=
  ["de", "la", "del", "di", "da", "el", "al", "van", "von", "bin", "ben",
   "le", "du", "dos", "das"]

structure ParsedName where
  firstName : String
  lastName : String
deriving DecidableEq, Repr

/-- The `while (lastNameStart > 1 && PARTICLES.has(...)) lastNameStart--`
scan of `parseFullName`, as a recursion on the current index. -/
def lastNameStartFrom (parts : List String) : Nat → Nat
  | 0 => 0
  | 1 => 1
  | i + 2 =>
    if PARTICLES.contains (lowerStr (parts.getD (i + 1) "")) then
      lastNameStartFrom parts (i + 1)
    else
      i + 2

/-- `parseFullName` from `src/sheets.js`. -/
def parseFullName (fullName : String) : ParsedName :=
  let parts := jsSplitParts fullName
  if parts.length = 0 then
    { firstName := "", lastName := "" }
  else if parts.length = 1 then
    { firstName := parts.getD 0 "", lastName := "" }
  else
    let firstName := parts.getD 0 ""
    let lastToken := parts.getD (parts.length - 1) ""
    if 3 ≤ parts.length ∧ SUFFIXES.contains (lowerStr lastToken) then
      { firstName, lastName := parts.getD (parts.length - 2) "" ++ " " ++ lastToken }
    else
      let start := lastNameStartFrom parts (parts.length - 1)
      { firstName, lastName := " ".intercalate (parts.drop start) }

example : parseFullName "Caden Lepple" = ⟨"Caden", "Lepple"⟩ := by decide
example : parseFullName "Frank Clinton Elcan IV" = ⟨"Frank", "Elcan IV"⟩ := by decide
example : parseFullName "Adelina de la Rosa" = ⟨"Adelina", "de la Rosa"⟩ := by decide
example : parseFullName "Cheyanne" = ⟨"Cheyanne", ""⟩ := by decide
example : parseFullName "Ricardo Perez Jr" = ⟨"Ricardo", "Perez Jr"⟩ := by decide
example : parseFullName "Madison L. Bass" = ⟨"Madison", "Bass"⟩ := by decide
example : parseFullName "" = ⟨"", ""⟩ := by decide
example : parseFullName " " = ⟨"", ""⟩ := by decide

/-! ### Lemmas about the tokenizer -/

lemma mem_wordsAux_ne_nil :
    ∀ (l acc : List Char), ∀ w ∈ wordsAux l acc, w ≠ [] := by
  intro l
  induction l with
  | nil =>
    intro acc w hw
    simp only [wordsAux] at hw
    split at hw
    · simp at hw
    · next h =>
      simp only [List.mem_singleton] at hw
      subst hw
      intro hrev
      exact h (by simp [List.isEmpty_iff, List.reverse_eq_nil_iff.mp hrev])
  | cons c cs ih =>
    intro acc w hw
    simp only [wordsAux] at hw
    split at hw
    · split at hw
      · exact ih [] w hw
      · next h =>
        rcases List.mem_cons.mp hw with hw' | hw'
        · subst hw'
          intro hrev
          exact h (by simp [List.isEmpty_iff, List.reverse_eq_nil_iff.mp hrev])
        · exact ih [] w hw'
    · exact ih (c :: acc) w hw

lemma wordsAux_eq_nil_iff :
    ∀ (l acc : List Char), wordsAux l acc = [] ↔ (acc = [] ∧ l.all jsWs = true) := by
  intro l
  induction l with
  | nil =>
    intro acc
    simp only [wordsAux, List.all_nil]
    split
    · next h => simp [List.isEmpty_iff.mp h]
    · next h =>
      simp only [List.isEmpty_iff] at h
      simp [h]
  | cons c cs ih =>
    intro acc
    simp only [wordsAux, List.all_cons]
    split
    · next hws =>
      split
      · next h =>
        rw [ih []]
        simp [List.isEmpty_iff.mp h, hws]
      · next h =>
        simp only [List.isEmpty_iff] at h
        simp [h]
    · next hws =>
      rw [ih (c :: acc)]
      simp only [Bool.and_eq_true]
      constructor
      · rintro ⟨h, -⟩; exact absurd h (List.cons_ne_nil _ _)
      · rintro ⟨-, h, -⟩; exact absurd h (by simpa using hws)

lemma jsTokens_eq_nil_iff (s : String) :
    jsTokens s = [] ↔ s.data.all jsWs = true := by
  rw [jsTokens, List.map_eq_nil_iff, wordsAux_eq_nil_iff]
  simp

/-- In every branch of `parseFullName`, `firstName` is the head of the
split token list. -/
lemma parseFullName_firstName_eq (s : String) :
    (parseFullName s).firstName = (jsSplitParts s).getD 0 "" := by
  simp only [parseFullName]
  split
  · next h => simp [List.length_eq_zero.mp h]
  · split
    · rfl
    · split
      · rfl
      · rfl

/-- C8 as stated is false on this input: a whitespace-only (hence
non-empty) input yields an empty `firstName`. -/
theorem parseFullName_firstName_empty_not_iff :
    ¬ (((parseFullName " ").firstName = "") ↔ (" " : String) = "") := by
  decide

/-- C8, amended: `firstName` is always the first whitespace-delimited
token of the input, and it is empty iff the input contains no
non-whitespace character (rather than iff the input is the empty string). -/
theorem parseFullName_firstName_spec (s : String) :
    (parseFullName s).firstName = (jsTokens s).headD "" ∧
    ((parseFullName s).firstName = "" ↔ s.data.all jsWs = true) := by
  have hfn := parseFullName_firstName_eq s
  rcases ht : jsTokens s with - | ⟨w, ws⟩
  · have hall : s.data.all jsWs = true := (jsTokens_eq_nil_iff s).mp ht
    refine ⟨?_, ?_⟩
    · rw [hfn]; simp [jsSplitParts, ht]
    · rw [hfn]; simp [jsSplitParts, ht, hall]
  · have hwmem : w ∈ jsTokens s := by rw [ht]; exact List.mem_cons_self _ _
    have hw : w ≠ "" := by
      obtain ⟨l, hl, hlw⟩ := List.mem_map.mp (by simpa [jsTokens] using hwmem)
      have hlne : l ≠ [] := mem_wordsAux_ne_nil _ _ _ hl
      intro hcontra
      apply hlne
      have := congrArg String.data (hlw.trans hcontra)
      simpa using this
    have hnall : ¬ s.data.all jsWs = true := by
      intro hall
      have h0 : jsTokens s = [] := (jsTokens_eq_nil_iff s).mpr hall
      rw [ht] at h0
      exact List.cons_ne_nil _ _ h0
    refine ⟨?_, ?_⟩
    · rw [hfn]; simp [jsSplitParts, ht]
    · rw [hfn]
      simp only [jsSplitParts, ht]
      rw [if_neg (List.cons_ne_nil _ _)]
      exact ⟨fun h => absurd h hw, fun h => absurd h hnall⟩

/-- C9: when the split yields at least 3 tokens and the last one is a
recognised suffix (case-insensitively), `lastName` is the token before the
suffix, a space, and the suffix token. -/
theorem parseFullName_suffix_spec (s : String)
    (h3 : 3 ≤ (jsSplitParts s).length)
    (hsuf : SUFFIXES.contains
        (lowerStr ((jsSplitParts s).getD ((jsSplitParts s).length - 1) "")) = true) :
    (parseFullName s).lastName =
      (jsSplitParts s).getD ((jsSplitParts s).length - 2) "" ++ " " ++
      (jsSplitParts s).getD ((jsSplitParts s).length - 1) "" := by
  simp only [parseFullName]
  rw [if_neg (by omega), if_neg (by omega), if_pos ⟨h3, hsuf⟩]

/-- Witness for C9 on the spec's own example. -/
theorem parseFullName_suffix_spec_witness :
    (parseFullName "Frank Clinton Elcan IV").lastName = "Elcan IV" := by
  have h := parseFullName_suffix_spec "Frank Clinton Elcan IV" (by decide) (by decide)
  exact h.trans (by decide)

/-! ## Workflow state machine (`src/gusto.js`, `addContractor`)

`addContractor` runs eight step functions in a fixed order inside a single
`try`.  Each step is an external interaction that either completes or
throws; this is modelled by an environment `steps : Nat → Except String
Unit` giving each step's outcome for this invocation.  The returned
`WorkflowRun` mirrors the JavaScript object (the wall-clock `elapsed`
string is logging-only and omitted).  `executed` is the ordered list of
step indices the run actually attempted, so that "no later step is
executed and no step is retried" is visible in the model. -/

/-- The eight step identifiers pushed to `stepsCompleted`, in their fixed
source order. -/
def stepIds : List String :=
  ["navigate_add_person", "basics_form", "role_start_date", "compensation",
   "review", "onboarding", "contact_details", "send_invitation"]

structure WorkflowRun where
  success : Bool
  name : String
  stepsCompleted : List String
  errors : List String
deriving DecidableEq, Repr

structure WorkflowExec where
  run : WorkflowRun
  executed : List Nat
deriving DecidableEq, Repr

/-- Sequential execution of the remaining steps: step `i` is attempted; on
success its identifier is recorded and execution continues, on an exception
the remaining steps are skipped and the error message is captured (the
`catch` block of `addContractor`). -/
def addContractorGo (steps : Nat → Except String Unit) :
    Nat → List String → (List String × List String × Bool × List Nat)
  | _, [] => ([], [], true, [])
  | i, id :: rest =>
    match steps i with
    | .ok _ =>
      let (c, e, s, t) := addContractorGo steps (i + 1) rest
      (id :: c, e, s, i :: t)
    | .error msg => ([], [msg], false, [i])

/-- `addContractor` from `src/gusto.js`: runs the eight steps in order,
returning the run summary together with the ordered list of executed step
indices. -/
def addContractor (name : String) (steps : Nat → Except String Unit) :
    WorkflowExec :=
  let (c, e, s, t) := addContractorGo steps 0 stepIds
  ⟨⟨s, name, c, e⟩, t⟩

lemma addContractorGo_all_ok (steps : Nat → Except String Unit) :
    ∀ (ids : List String) (i : Nat),
      (∀ j, j < ids.length → steps (i + j) = .ok ()) →
      addContractorGo steps i ids = (ids, [], true, List.range' i ids.length) := by
  intro ids
  induction ids with
  | nil => intro i _; simp [addContractorGo, List.range']
  | cons id rest ih =>
    intro i h
    have h0 : steps i = .ok () := by simpa using h 0 (by simp)
    have hrest : ∀ j, j < rest.length → steps (i + 1 + j) = .ok () := by
      intro j hj
      have := h (j + 1) (by simpa using Nat.succ_lt_succ hj)
      simpa [Nat.add_comm, Nat.add_assoc, Nat.add_left_comm] using this
    simp [addContractorGo, h0, ih (i + 1) hrest, List.range']

lemma addContractorGo_fail (steps : Nat → Except String Unit) :
    ∀ (ids : List String) (i k : Nat) (msg : String),
      k < ids.length →
      (∀ j, j < k → steps (i + j) = .ok ()) →
      steps (i + k) = .error msg →
      addContractorGo steps i ids =
        (ids.take k, [msg], false, List.range' i (k + 1)) := by
  intro ids
  induction ids with
  | nil => intro i k msg hk; simp at hk
  | cons id rest ih =>
    intro i k msg hk hok hfail
    match k with
    | 0 =>
      simp only [Nat.add_zero] at hfail
      simp [addContractorGo, hfail, List.range']
    | k + 1 =>
      have h0 : steps i = .ok () := by simpa using hok 0 (Nat.succ_pos _)
      have hok' : ∀ j, j < k → steps (i + 1 + j) = .ok () := by
        intro j hj
        have := hok (j + 1) (Nat.succ_lt_succ hj)
        simpa [Nat.add_comm, Nat.add_assoc, Nat.add_left_comm] using this
      have hfail' : steps (i + 1 + k) = .error msg := by
        simpa [Nat.add_comm, Nat.add_assoc, Nat.add_left_comm] using hfail
      have hk' : k < rest.length := by simpa using Nat.lt_of_succ_lt_succ hk
      simp [addContractorGo, h0, ih (i + 1) k msg hk' hok' hfail', List.range']

/-- C1: if all eight steps succeed, the run reports success with exactly
the eight step identifiers in order; if the steps before 0-based index `k`
succeed and step `k` throws `msg`, the run reports failure with exactly
the first `k` identifiers, the single error message `msg`, and only steps
`0..k` were executed, each exactly once (no later step runs, no retry). -/
theorem addContractor_spec :
    (∀ (nm : String) (steps : Nat → Except String Unit),
      (∀ i, i < 8 → steps i = .ok ()) →
      addContractor nm steps = ⟨⟨true, nm, stepIds, []⟩, List.range 8⟩) ∧
    (∀ (nm : String) (steps : Nat → Except String Unit) (k : Nat) (msg : String),
      k < 8 →
      (∀ j, j < k → steps j = .ok ()) →
      steps k = .error msg →
      addContractor nm steps =
        ⟨⟨false, nm, stepIds.take k, [msg]⟩, List.range (k + 1)⟩) := by
  constructor
  · intro nm steps h
    have hlen : stepIds.length = 8 := by decide
    have := addContractorGo_all_ok steps stepIds 0
      (by intro j hj; rw [hlen] at hj; simpa using h j hj)
    simp [addContractor, this, hlen, List.range_eq_range']
  · intro nm steps k msg hk hok hfail
    have hlen : stepIds.length = 8 := by decide
    have := addContractorGo_fail steps stepIds 0 k msg (by omega)
      (by intro j hj; simpa using hok j hj) (by simpa using hfail)
    simp [addContractor, this, List.range_eq_range']

/-- Witness for C1: a fully-successful run, and a run whose 4th step
(0-based index 3) never reaches "ready" — it fails with the first three
identifiers completed, exactly as the spec's scenario describes. -/
theorem addContractor_spec_witness :
    addContractor "Caden Lepple" (fun _ => .ok ()) =
      ⟨⟨true, "Caden Lepple", stepIds, []⟩, List.range 8⟩ ∧
    addContractor "Caden Lepple"
        (fun i => if i = 3 then .error "timeout waiting for ready" else .ok ()) =
      ⟨⟨false, "Caden Lepple",
         ["navigate_add_person", "basics_form", "role_start_date"],
         ["timeout waiting for ready"]⟩, List.range 4⟩ := by
  constructor
  · exact addContractor_spec.1 _ _ (fun i _ => rfl)
  · have h := addContractor_spec.2 "Caden Lepple"
      (fun i => if i = 3 then .error "timeout waiting for ready" else .ok ())
      3 "timeout waiting for ready" (by omega)
      (by intro j hj; simp only [if_neg (by omega : ¬ j = 3)])
      (by simp)
    simpa using h

/-! ## Row cache (`src/cache.js`, concatenated into `src/index.js`)

The cache module keeps a module-level `_cache` (here `mem`, `none`
until loaded) and persists it to a JSON file (here `disk`; a missing or
corrupt file reads as the empty cache, so `disk` is simply a `Cache`).
Entries are keyed by profile (`a` unless `--sheet-b` is passed, fixed for
the whole process) and then by row number.  `setCachedRow` merges the
patch into the existing entry with object spread — fields present in the
patch win — and then saves the whole cache. -/

inductive Profile
  | a
  | b
deriving DecidableEq, Repr

/-- One cache entry.  Every field is optional: JavaScript objects simply
lack the fields that were never written.  `completed` is the normalised
yes/no marker and `completedRaw` the original cell text. -/
structure CacheEntry where
  sent : Option Bool
  name : Option String
  completed : Option String
  completedRaw : Option String
  empty : Option Bool
deriving DecidableEq, Repr

def CacheEntry.blank : CacheEntry := ⟨none, none, none, none, none⟩

/-- Field-wise override: a field present in the patch `p` replaces the old
value, an absent field keeps it (`\x7b...old, ...p\x7d` in the source). -/
def ow {α : Type} : Option α → Option α → Option α
  | some v, _ => some v
  | none, o => o

/-- `cache[pk][row] = \x7b ...cache[pk][row], ...data \x7d`. -/
def mergeEntry (old p : CacheEntry) : CacheEntry :=
  ⟨ow p.sent old.sent, ow p.name old.name, ow p.completed old.completed,
   ow p.completedRaw old.completedRaw, ow p.empty old.empty⟩

def Cache : Type := Profile → Nat → Option CacheEntry

def emptyCache : Cache := fun _ _ => none

/-- Module state of `cache.js`: the in-memory `_cache` (if loaded) and the
persisted file contents. -/
structure CacheState where
  mem : Option Cache
  disk : Cache

/-- `loadCache(reset)`: with `reset` it replaces the in-memory cache by an
empty one; otherwise it returns the memoized cache, reading the file (or
the empty cache) on first use. -/
def loadCache (reset : Bool) (s : CacheState) : Cache × CacheState :=
  if reset then (emptyCache, { s with mem := some emptyCache })
  else
    match s.mem with
    | some c => (c, s)
    | none => (s.disk, { s with mem := some s.disk })

/-- `saveCache()`: writes the in-memory cache to the file (no-op when
nothing is loaded). -/
def saveCache (s : CacheState) : CacheState :=
  match s.mem with
  | none => s
  | some c => { s with disk := c }

/-- `getCachedRow(row)` under the active profile. -/
def getCachedRow (pk : Profile) (row : Nat) (s : CacheState) :
    Option CacheEntry × CacheState :=
  let (c, s') := loadCache false s
  (c pk row, s')

/-- The value `getCachedRow` returns (ignoring the memoization). -/
def getVal (pk : Profile) (row : Nat) (s : CacheState) : Option CacheEntry :=
  (getCachedRow pk row s).1

/-- `setCachedRow(row, data)`: load, merge the patch into the entry for
`(profile, row)`, save. -/
def setCachedRow (pk : Profile) (row : Nat) (data : CacheEntry)
    (s : CacheState) : CacheState :=
  let (c, s') := loadCache false s
  let old := (c pk row).getD CacheEntry.blank
  let c' : Cache := fun p r =>
    if p = pk ∧ r = row then some (mergeEntry old data) else c p r
  saveCache { s' with mem := some c' }

/-! ### Basic cache lemmas -/

lemma getVal_setCachedRow_same (pk : Profile) (row : Nat) (data : CacheEntry)
    (s : CacheState) :
    getVal pk row (setCachedRow pk row data s) =
      some (mergeEntry ((getVal pk row s).getD CacheEntry.blank) data) := by
  unfold getVal getCachedRow setCachedRow saveCache loadCache
  cases s.mem <;> simp

lemma getVal_setCachedRow_ne (pk pk' : Profile) (row row' : Nat)
    (data : CacheEntry) (s : CacheState)
    (h : ¬ (pk' = pk ∧ row' = row)) :
    getVal pk' row' (setCachedRow pk row data s) = getVal pk' row' s := by
  unfold getVal getCachedRow setCachedRow saveCache loadCache
  cases s.mem <;> simp [h]

lemma getVal_loadFalse (pk : Profile) (row : Nat) (s : CacheState) :
    getVal pk row (loadCache false s).2 = getVal pk row s := by
  unfold getVal getCachedRow loadCache
  cases h : s.mem <;> simp [h]

lemma getVal_getCachedRow (pk pk' : Profile) (row row' : Nat) (s : CacheState) :
    getVal pk' row' (getCachedRow pk row s).2 = getVal pk' row' s := by
  unfold getVal getCachedRow loadCache
  cases h : s.mem <;> simp [h]

/-! ### C5: merge semantics and profile isolation -/

/-- Applying a list of `setCachedRow` patches to the same key, in order. -/
def applySets (pk : Profile) (row : Nat) (ps : List CacheEntry)
    (s : CacheState) : CacheState :=
  ps.foldl (fun st p => setCachedRow pk row p st) s

/-- Last non-absent value wins, reading the list left to right. -/
def lastWins {α : Type} (init : Option α) (l : List (Option α)) : Option α :=
  l.foldl (fun acc o => ow o acc) init

lemma applySets_getVal (pk : Profile) (row : Nat) :
    ∀ (ps : List CacheEntry) (s : CacheState) (e : CacheEntry),
      getVal pk row s = some e →
      getVal pk row (applySets pk row ps s) = some (ps.foldl mergeEntry e) := by
  intro ps
  induction ps with
  | nil => intro s e h; simpa [applySets] using h
  | cons p rest ih =>
    intro s e h
    have h1 : getVal pk row (setCachedRow pk row p s) =
        some (mergeEntry e p) := by
      rw [getVal_setCachedRow_same, h]; rfl
    simpa [applySets] using ih (setCachedRow pk row p s) (mergeEntry e p) h1

lemma foldl_mergeEntry_fields :
    ∀ (ps : List CacheEntry) (e : CacheEntry),
      (ps.foldl mergeEntry e).sent = lastWins e.sent (ps.map (·.sent)) ∧
      (ps.foldl mergeEntry e).name = lastWins e.name (ps.map (·.name)) ∧
      (ps.foldl mergeEntry e).completed =
        lastWins e.completed (ps.map (·.completed)) ∧
      (ps.foldl mergeEntry e).completedRaw =
        lastWins e.completedRaw (ps.map (·.completedRaw)) ∧
      (ps.foldl mergeEntry e).empty = lastWins e.empty (ps.map (·.empty)) := by
  intro ps
  induction ps with
  | nil => intro e; simp [lastWins]
  | cons p rest ih =>
    intro e
    simpa [lastWins, mergeEntry] using ih (mergeEntry e p)

/-- C5: a `getCachedRow` after any non-empty sequence of `setCachedRow`
calls on the same key returns the field-wise merge of all prior patches
(`mergeEntry` folded over them, i.e. last-write-wins per field, as the
`foldl_mergeEntry_fields` component spells out), and an entry written
under one profile is never returned by a get under the other profile. -/
theorem cache_merge_and_isolation :
    (∀ (pk : Profile) (row : Nat) (ps : List CacheEntry) (s : CacheState),
      ps ≠ [] →
      getVal pk row (applySets pk row ps s) =
        some (ps.foldl mergeEntry ((getVal pk row s).getD CacheEntry.blank))) ∧
    (∀ (ps : List CacheEntry) (e : CacheEntry),
      (ps.foldl mergeEntry e).sent = lastWins e.sent (ps.map (·.sent)) ∧
      (ps.foldl mergeEntry e).name = lastWins e.name (ps.map (·.name)) ∧
      (ps.foldl mergeEntry e).completed =
        lastWins e.completed (ps.map (·.completed)) ∧
      (ps.foldl mergeEntry e).completedRaw =
        lastWins e.completedRaw (ps.map (·.completedRaw)) ∧
      (ps.foldl mergeEntry e).empty = lastWins e.empty (ps.map (·.empty))) ∧
    (∀ (pk pk' : Profile) (row row' : Nat) (data : CacheEntry) (s : CacheState),
      pk ≠ pk' →
      getVal pk' row' (setCachedRow pk row data s) = getVal pk' row' s) := by
  refine ⟨?_, foldl_mergeEntry_fields, ?_⟩
  · intro pk row ps s hne
    match ps with
    | [] => exact absurd rfl hne
    | p :: rest =>
      have h1 : getVal pk row (setCachedRow pk row p s) =
          some (mergeEntry ((getVal pk row s).getD CacheEntry.blank) p) :=
        getVal_setCachedRow_same pk row p s
      have := applySets_getVal pk row rest (setCachedRow pk row p s)
        (mergeEntry ((getVal pk row s).getD CacheEntry.blank) p) h1
      simpa [applySets] using this
  · intro pk pk' row row' data s h
    exact getVal_setCachedRow_ne pk pk' row row' data s (by tauto)

/-- Witness for C5 at concrete patches: two sets on row 4 of profile `a`
merge last-write-wins, and the entry stays invisible under profile `b`. -/
theorem cache_merge_and_isolation_witness :
    getVal .a 4 (applySets .a 4
        [⟨some true, none, none, none, none⟩,
         ⟨none, some "Caden Lepple", none, none, none⟩]
        ⟨none, emptyCache⟩) =
      some ⟨some true, some "Caden Lepple", none, none, none⟩ ∧
    getVal .b 4 (setCachedRow .a 4 ⟨some true, none, none, none, none⟩
        ⟨none, emptyCache⟩) = none := by
  constructor
  · have h := cache_merge_and_isolation.1 .a 4
      [⟨some true, none, none, none, none⟩,
       ⟨none, some "Caden Lepple", none, none, none⟩]
      ⟨none, emptyCache⟩ (by simp)
    rw [h]; rfl
  · have h := cache_merge_and_isolation.2.2 .a .b 4 4
      ⟨some true, none, none, none, none⟩ ⟨none, emptyCache⟩ (by simp)
    rw [h]; rfl

/-! ### C6: entry lifecycle across cache operations

`verify.js` starts with `if (opts.noCache) loadCache(true)`, so a run with
the cache-disable flag resets the in-memory cache to empty; the next
`setCachedRow` then persists the truncated cache, deleting previously
persisted entries.  Without a reset load, entries are indeed append-only
and every `setCachedRow` persists the whole cache. -/

inductive CacheOp
  | loadOp (reset : Bool)
  | getOp (pk : Profile) (row : Nat)
  | setOp (pk : Profile) (row : Nat) (data : CacheEntry)
deriving DecidableEq

def applyOp : CacheOp → CacheState → CacheState
  | .loadOp r, s => (loadCache r s).2
  | .getOp pk row, s => (getCachedRow pk row s).2
  | .setOp pk row d, s => setCachedRow pk row d s

def applyOps (ops : List CacheOp) (s : CacheState) : CacheState :=
  ops.foldl (fun st op => applyOp op st) s

/-- A persisted entry visible before the run. -/
def aliceEntry : CacheEntry := ⟨some true, some "Alice Smith", none, none, none⟩

def c6Disk : Cache := fun p r => if p = .a ∧ r = 5 then some aliceEntry else none

/-- Start of a fresh process: nothing loaded, one persisted entry. -/
def c6Start : CacheState := ⟨none, c6Disk⟩

/-- The operations a `--no-cache` verifier run performs: the reset load,
then the first `setCachedRow` of the run (any other row). -/
def c6Ops : List CacheOp :=
  [.loadOp true, .setOp .a 7 ⟨some false, none, none, none, some true⟩]

/-- C6 as stated is false: the entry for `(a, 5)` exists before a run
started with the cache-disable flag, and after the run's reset load plus
one mutation it is gone from both the cache and the persisted file. -/
theorem cache_append_only_counterexample :
    getVal .a 5 c6Start = some aliceEntry ∧
    getVal .a 5 (applyOps c6Ops c6Start) = none ∧
    (applyOps c6Ops c6Start).disk .a 5 = none := by
  refine ⟨rfl, rfl, rfl⟩

/-- C6, amended: across any sequence of cache operations that contains no
reset load (`loadCache(true)`, performed only by a cache-disable run), an
entry once present is never deleted; and every `setCachedRow` leaves the
full cache persisted (the file equals the in-memory cache). -/
theorem cache_append_only_amended :
    (∀ (ops : List CacheOp) (s : CacheState),
      (∀ op ∈ ops, op ≠ .loadOp true) →
      ∀ (pk : Profile) (row : Nat),
        (getVal pk row s).isSome → (getVal pk row (applyOps ops s)).isSome) ∧
    (∀ (pk : Profile) (row : Nat) (d : CacheEntry) (s : CacheState),
      (setCachedRow pk row d s).mem = some (setCachedRow pk row d s).disk) := by
  constructor
  · intro ops
    induction ops with
    | nil => intro s _ pk row h; simpa [applyOps] using h
    | cons op rest ih =>
      intro s hops pk row h
      have hop : op ≠ .loadOp true := hops op (List.mem_cons_self _ _)
      have hrest : ∀ o ∈ rest, o ≠ CacheOp.loadOp true :=
        fun o ho => hops o (List.mem_cons_of_mem _ ho)
      have hstep : (getVal pk row (applyOp op s)).isSome := by
        match op with
        | .loadOp true => exact absurd rfl hop
        | .loadOp false => simpa [applyOp, getVal_loadFalse] using h
        | .getOp pk' row' => simpa [applyOp, getVal_getCachedRow] using h
        | .setOp pk' row' d =>
          by_cases hk : pk = pk' ∧ row = row'
          · rw [applyOp, hk.1, hk.2, getVal_setCachedRow_same]; rfl
          · rw [applyOp, getVal_setCachedRow_ne pk' pk row' row d s (by tauto)]
            exact h
      simpa [applyOps] using ih (applyOp op s) hrest pk row hstep
  · intro pk row d s
    unfold setCachedRow saveCache loadCache
    cases h : s.mem <;> simp [h]

/-- Witness for C6 amended: a reset-free sequence preserves the persisted
entry, and the set it contains leaves memory and disk in sync. -/
theorem cache_append_only_amended_witness :
    (getVal .a 5 (applyOps
        [.getOp .a 5, .setOp .a 7 ⟨some false, none, none, none, some true⟩]
        c6Start)).isSome = true ∧
    (setCachedRow .a 7 ⟨some false, none, none, none, some true⟩ c6Start).mem =
      some (setCachedRow .a 7 ⟨some false, none, none, none, some true⟩
        c6Start).disk := by
  constructor
  · exact cache_append_only_amended.1
      [.getOp .a 5, .setOp .a 7 ⟨some false, none, none, none, some true⟩]
      c6Start (by intro op hop; fin_cases hop <;> simp)
      .a 5 (by rfl)
  · exact cache_append_only_amended.2 .a 7
      ⟨some false, none, none, none, some true⟩ c6Start

/-! ## Verified cell write (`src/sheets.js`, `writeCell`)

`writeCell` loops `attempt = 1 .. maxRetries`: it escapes edit mode,
navigates, types the full value, commits, reads the cell back via
`readCell`, and compares case-insensitively.  On a match it returns at
once; on a mismatch it waits `shortDelay(300, 500)` and tries again; after
the last attempt it logs an error and returns (it never throws in this
path).  The read-back of attempt `n` is supplied by an environment
`readback : Nat → String`; the trace records the interactions, with the
backoff delay kept as its `(min, max)` bounds (the unconditional
post-commit settle delays are pacing only and are not backoff, so they are
not recorded). -/

inductive WrEv
  | attemptEv (n : Nat) (typed : String)
  | readBackEv (v : String)
  | delayEv (lo hi : Nat)
  | verifiedEv (v : String)
  | reportFailureEv (v : String)
deriving DecidableEq, Repr

/-- The retry loop of `writeCell`, from attempt number `attempt` with
`rem` attempts remaining.  Returns the trace and whether verification
succeeded. -/
def writeCellGo (readback : Nat → String) (value : String) :
    Nat → Nat → List WrEv × Bool
  | _, 0 => ([], false)
  | attempt, rem + 1 =>
    let actual := readback attempt
    if lowerStr actual = lowerStr value then
      ([.attemptEv attempt value, .readBackEv actual, .verifiedEv value], true)
    else
      let (rest, ok) := writeCellGo readback value (attempt + 1) rem
      ([.attemptEv attempt value, .readBackEv actual, .delayEv 300 500] ++ rest,
       ok)

/-- `writeCell` with the given environment: the loop, then the
"failed after maxRetries attempts" error report when it never verified. -/
def writeCell (readback : Nat → String) (value : String) (maxRetries : Nat) :
    List WrEv × Bool :=
  let (evs, ok) := writeCellGo readback value 1 maxRetries
  if ok then (evs, true) else (evs ++ [.reportFailureEv value], false)

/-- The attempt numbers recorded in a trace, in order. -/
def attemptsOf (evs : List WrEv) : List Nat :=
  evs.filterMap fun e =>
    match e with
    | .attemptEv n _ => some n
    | _ => none

/-- The `(min, max)` bounds of the backoff delays in a trace, in order. -/
def retryDelays (evs : List WrEv) : List (Nat × Nat) :=
  evs.filterMap fun e =>
    match e with
    | .delayEv lo hi => some (lo, hi)
    | _ => none

/-- The claim's "increasing backoff": each successive retry delay has
strictly larger bounds than the previous one. -/
def DelaysIncreasing (evs : List WrEv) : Prop :=
  List.Chain' (fun a b : Nat × Nat => a.1 < b.1 ∧ a.2 < b.2) (retryDelays evs)

lemma attemptsOf_append (xs ys : List WrEv) :
    attemptsOf (xs ++ ys) = attemptsOf xs ++ attemptsOf ys := by
  simp [attemptsOf]

lemma retryDelays_append (xs ys : List WrEv) :
    retryDelays (xs ++ ys) = retryDelays xs ++ retryDelays ys := by
  simp [retryDelays]

lemma writeCellGo_shape (readback : Nat → String) (value : String) :
    ∀ (rem attempt : Nat), ∃ n, n ≤ rem ∧
      attemptsOf (writeCellGo readback value attempt rem).1 =
        List.range' attempt n := by
  intro rem
  induction rem with
  | zero => intro attempt; exact ⟨0, Nat.le_refl _, by simp [writeCellGo, attemptsOf]⟩
  | succ rem ih =>
    intro attempt
    by_cases h : lowerStr (readback attempt) = lowerStr value
    · exact ⟨1, by omega, by simp [writeCellGo, h, attemptsOf, List.range']⟩
    · obtain ⟨n, hle, heq⟩ := ih (attempt + 1)
      refine ⟨n + 1, by omega, ?_⟩
      have hgo : (writeCellGo readback value attempt (rem + 1)).1 =
          [.attemptEv attempt value, .readBackEv (readback attempt),
           .delayEv 300 500] ++ (writeCellGo readback value (attempt + 1) rem).1 := by
        simp [writeCellGo, h]
      rw [hgo, attemptsOf_append, heq]
      simp [attemptsOf, List.range'_succ]

lemma writeCellGo_never (readback : Nat → String) (value : String) :
    ∀ (rem attempt : Nat),
      (∀ j, attempt ≤ j → j < attempt + rem →
        lowerStr (readback j) ≠ lowerStr value) →
      (writeCellGo readback value attempt rem).2 = false ∧
      attemptsOf (writeCellGo readback value attempt rem).1 =
        List.range' attempt rem ∧
      retryDelays (writeCellGo readback value attempt rem).1 =
        List.replicate rem (300, 500) := by
  intro rem
  induction rem with
  | zero => intro attempt _; simp [writeCellGo, attemptsOf, retryDelays]
  | succ rem ih =>
    intro attempt hmis
    have h0 : lowerStr (readback attempt) ≠ lowerStr value :=
      hmis attempt (Nat.le_refl _) (by omega)
    obtain ⟨ihok, ihatt, ihdel⟩ := ih (attempt + 1)
      (fun j hj1 hj2 => hmis j (by omega) (by omega))
    have hgo : (writeCellGo readback value attempt (rem + 1)) =
        ([.attemptEv attempt value, .readBackEv (readback attempt),
          .delayEv 300 500] ++ (writeCellGo readback value (attempt + 1) rem).1,
         (writeCellGo readback value (attempt + 1) rem).2) := by
      simp [writeCellGo, h0]
    rw [hgo]
    refine ⟨ihok, ?_, ?_⟩
    · rw [attemptsOf_append, ihatt]
      simp [attemptsOf, List.range'_succ]
    · rw [retryDelays_append, ihdel]
      simp [retryDelays, List.replicate_succ]

lemma writeCellGo_first_match (readback : Nat → String) (value : String) :
    ∀ (rem attempt i : Nat),
      attempt ≤ i → i < attempt + rem →
      lowerStr (readback i) = lowerStr value →
      (∀ j, attempt ≤ j → j < i → lowerStr (readback j) ≠ lowerStr value) →
      (writeCellGo readback value attempt rem).2 = true ∧
      attemptsOf (writeCellGo readback value attempt rem).1 =
        List.range' attempt (i + 1 - attempt) ∧
      retryDelays (writeCellGo readback value attempt rem).1 =
        List.replicate (i - attempt) (300, 500) ∧
      ∃ pre, (writeCellGo readback value attempt rem).1 =
        pre ++ [.verifiedEv value] := by
  intro rem
  induction rem with
  | zero => intro attempt i h1 h2; omega
  | succ rem ih =>
    intro attempt i h1 h2 hmatch hpre
    by_cases hi : attempt = i
    · subst hi
      refine ⟨?_, ?_, ?_, ?_⟩
      · simp [writeCellGo, hmatch]
      · simp [writeCellGo, hmatch, attemptsOf, List.range']
      · simp [writeCellGo, hmatch, retryDelays]
      · refine ⟨[.attemptEv attempt value, .readBackEv (readback attempt)], ?_⟩
        simp [writeCellGo, hmatch]
    · have h0 : lowerStr (readback attempt) ≠ lowerStr value :=
        hpre attempt (Nat.le_refl _) (by omega)
      obtain ⟨ihok, ihatt, ihdel, pre, ihpre⟩ := ih (attempt + 1) i (by omega)
        (by omega) hmatch (fun j hj1 hj2 => hpre j (by omega) hj2)
      have hgo : (writeCellGo readback value attempt (rem + 1)) =
          ([.attemptEv attempt value, .readBackEv (readback attempt),
            .delayEv 300 500] ++ (writeCellGo readback value (attempt + 1) rem).1,
           (writeCellGo readback value (attempt + 1) rem).2) := by
        simp [writeCellGo, h0]
      rw [hgo]
      refine ⟨ihok, ?_, ?_, ?_⟩
      · rw [attemptsOf_append, ihatt]
        have : i + 1 - attempt = (i + 1 - (attempt + 1)) + 1 := by omega
        rw [this]
        simp [attemptsOf, List.range'_succ]
      · rw [retryDelays_append, ihdel]
        have : i - attempt = (i - (attempt + 1)) + 1 := by omega
        rw [this]
        simp [retryDelays, List.replicate_succ]
      · exact ⟨[.attemptEv attempt value, .readBackEv (readback attempt),
          .delayEv 300 500] ++ pre, by rw [ihpre]; simp⟩

theorem writeCell_backoff_not_increasing :
    retryDelays (writeCell (fun _ => "stale") "Yes" 3).1 =
      [(300, 500), (300, 500), (300, 500)] ∧
    ¬ DelaysIncreasing (writeCell (fun _ => "stale") "Yes" 3).1 := by
  constructor
  · rfl
  · intro h
    unfold DelaysIncreasing at h
    have hr : retryDelays (writeCell (fun _ => "stale") "Yes" 3).1 =
        [(300, 500), (300, 500), (300, 500)] := rfl
    rw [hr] at h
    rcases List.chain'_cons.mp h with ⟨⟨h1, -⟩, -⟩
    omega

/-- C4, amended: `writeCell` performs at most `maxRetries` attempts,
numbered consecutively from 1; each attempt types the value, commits and
reads the cell back, comparing case-insensitively; the first verified
attempt returns immediately (the trace ends at its `verifiedEv`, with one
fewer delay than attempts); on a run that never verifies it performs
exactly `maxRetries` attempts separated by constant-bound `(300, 500)`
delays (not increasing backoff) and then reports the failure as a return
value rather than throwing, leaving the cell's outcome unset. -/
theorem writeCell_retry_spec :
    (∀ (readback : Nat → String) (value : String) (maxRetries : Nat),
      (attemptsOf (writeCell readback value maxRetries).1).length ≤ maxRetries ∧
      attemptsOf (writeCell readback value maxRetries).1 =
        List.range' 1 (attemptsOf (writeCell readback value maxRetries).1).length) ∧
    (∀ (readback : Nat → String) (value : String) (maxRetries i : Nat),
      1 ≤ i → i ≤ maxRetries →
      lowerStr (readback i) = lowerStr value →
      (∀ j, 1 ≤ j → j < i → lowerStr (readback j) ≠ lowerStr value) →
      (writeCell readback value maxRetries).2 = true ∧
      attemptsOf (writeCell readback value maxRetries).1 = List.range' 1 i ∧
      retryDelays (writeCell readback value maxRetries).1 =
        List.replicate (i - 1) (300, 500) ∧
      (writeCell readback value maxRetries).1.getLast? =
        some (.verifiedEv value)) ∧
    (∀ (readback : Nat → String) (value : String) (maxRetries : Nat),
      1 ≤ maxRetries →
      (∀ j, 1 ≤ j → j ≤ maxRetries → lowerStr (readback j) ≠ lowerStr value) →
      (writeCell readback value maxRetries).2 = false ∧
      attemptsOf (writeCell readback value maxRetries).1 =
        List.range' 1 maxRetries ∧
      retryDelays (writeCell readback value maxRetries).1 =
        List.replicate maxRetries (300, 500) ∧
      (writeCell readback value maxRetries).1.getLast? =
        some (.reportFailureEv value)) := by
  have hWCatt : ∀ (readback : Nat → String) (value : String) (maxRetries : Nat),
      attemptsOf (writeCell readback value maxRetries).1 =
        attemptsOf (writeCellGo readback value 1 maxRetries).1 := by
    intro readback value maxRetries
    unfold writeCell
    cases hok : (writeCellGo readback value 1 maxRetries).2 <;>
      simp [hok, attemptsOf_append, attemptsOf]
  have hWCdel : ∀ (readback : Nat → String) (value : String) (maxRetries : Nat),
      retryDelays (writeCell readback value maxRetries).1 =
        retryDelays (writeCellGo readback value 1 maxRetries).1 := by
    intro readback value maxRetries
    unfold writeCell
    cases hok : (writeCellGo readback value 1 maxRetries).2 <;>
      simp [hok, retryDelays_append, retryDelays]
  refine ⟨?_, ?_, ?_⟩
  · intro readback value maxRetries
    obtain ⟨n, hle, heq⟩ := writeCellGo_shape readback value maxRetries 1
    rw [hWCatt, heq]
    simp [List.length_range', hle]
  · intro readback value maxRetries i h1 h2 hmatch hpre
    obtain ⟨hok, hatt, hdel, pre, hconc⟩ :=
      writeCellGo_first_match readback value maxRetries 1 i h1 (by omega)
        hmatch hpre
    have hwc : writeCell readback value maxRetries =
        ((writeCellGo readback value 1 maxRetries).1, true) := by
      unfold writeCell
      simp [hok]
    refine ⟨by rw [hwc], ?_, ?_, ?_⟩
    · rw [hWCatt, hatt]
      have hi : i + 1 - 1 = i := by omega
      rw [hi]
    · rw [hWCdel, hdel]
    · rw [hwc]
      simp only
      rw [hconc]
      exact List.getLast?_concat _
  · intro readback value maxRetries hmr hmis
    obtain ⟨hok, hatt, hdel⟩ := writeCellGo_never readback value maxRetries 1
      (fun j hj1 hj2 => hmis j hj1 (by omega))
    have hwc : writeCell readback value maxRetries =
        ((writeCellGo readback value 1 maxRetries).1 ++
          [.reportFailureEv value], false) := by
      unfold writeCell
      simp [hok]
    refine ⟨by rw [hwc], ?_, ?_, ?_⟩
    · rw [hWCatt, hatt]
    · rw [hWCdel, hdel]
    · rw [hwc]
      exact List.getLast?_concat _

/-- Witness for C4 amended: a target that converges on the second attempt
verifies there with a single constant-bound delay, and a target that never
converges exhausts the three attempts and reports failure. -/
theorem writeCell_retry_spec_witness :
    (attemptsOf (writeCell (fun _ => "stale") "Yes" 3).1).length ≤ 3 ∧
    (writeCell (fun n => if n = 2 then "YES" else "stale") "Yes" 3).2 = true ∧
    attemptsOf
      (writeCell (fun n => if n = 2 then "YES" else "stale") "Yes" 3).1 =
      List.range' 1 2 ∧
    (writeCell (fun _ => "stale") "Yes" 3).2 = false ∧
    (writeCell (fun _ => "stale") "Yes" 3).1.getLast? =
      some (.reportFailureEv "Yes") := by
  refine ⟨(writeCell_retry_spec.1 (fun _ => "stale") "Yes" 3).1, ?_, ?_, ?_, ?_⟩
  · exact (writeCell_retry_spec.2.1 (fun n => if n = 2 then "YES" else "stale")
      "Yes" 3 2 (by omega) (by omega) (by decide)
      (by intro j hj1 hj2; interval_cases j; decide)).1
  · exact (writeCell_retry_spec.2.1 (fun n => if n = 2 then "YES" else "stale")
      "Yes" 3 2 (by omega) (by omega) (by decide)
      (by intro j hj1 hj2; interval_cases j; decide)).2.1
  · exact (writeCell_retry_spec.2.2 (fun _ => "stale") "Yes" 3 (by omega)
      (by intro j hj1 hj2
          show lowerStr "stale" ≠ lowerStr "Yes"
          decide)).1
  · exact (writeCell_retry_spec.2.2 (fun _ => "stale") "Yes" 3 (by omega)
      (by intro j hj1 hj2
          show lowerStr "stale" ≠ lowerStr "Yes"
          decide)).2.2.2

/-! ## Verification reconciler (`src/gustoVerify.js`, `checkVerification`)

`getOnboardingProgress` returns `\x7b found, progress \x7d` from the
onboarding view (`progress` is `null` when no percentage was parsed);
`isFoundOnAllPage` returns whether the person shows up on the roster view.
`checkVerification` first consults onboarding: found with progress 100
gives `yesValue`, found otherwise gives `noValue`; if not found there it
falls back to the roster view: present gives `yesValue`, absent gives
`null` (modelled `none`). -/

structure OnboardingResult where
  found : Bool
  progress : Option Nat
deriving DecidableEq, Repr

/-- `checkVerification` from `src/gustoVerify.js`, over the outcomes of
the two searches. -/
def checkVerification (onb : OnboardingResult) (onAll : Bool)
    (yesValue noValue : String) : Option String :=
  if onb.found then
    if onb.progress = some 100 then some yesValue else some noValue
  else if onAll then some yesValue
  else none

/-! ### The verifier's per-row processing (`src/verify.js`, main loop body)

The model follows lines 107–219 of `verify.js`: cache fast paths, the
"Gusto Sent" gate, the "GUSTO COMPLETED" gate, the name lookup, the cache
update, the dry-run short-circuit, and finally the reconciler and the
(unverified) sheet write.  Sheet reads and the tab switch can throw, which
propagates out of the loop (`aborted`); exceptions inside the
`try` block around the reconciler (e.g. the search input not being found)
are caught and recorded per-row (`searchExn`).  Counters are logging-only
and omitted. -/

structure VerifyRowEnv where
  bringSheets : Except String Unit
  readSent : Except String String
  readCompleted : Except String String
  readName : Except String String
  searchExn : Option String
  onboarding : OnboardingResult
  onAll : Bool

structure VerifyCfg where
  statusValue : String
  completedYes : String
  completedNo : String

inductive VEv
  | vCacheSkip
  | vSkipNotSent
  | vSkipCompleted
  | vSkipNoName
  | vCacheSet
  | vDryRunSkip
  | vCheck (verdict : Option String)
  | vWrite (value : String)
  | vRowError (msg : String)
deriving DecidableEq, Repr

structure VOut where
  aborted : Option String
  st : CacheState
  trace : List VEv

/-- One iteration of the `verify.js` row loop for row `row`. -/
def verifyRow (re : VerifyRowEnv) (cfg : VerifyCfg) (pk : Profile) (row : Nat)
    (dryRun : Bool) (st0 : CacheState) : VOut :=
  let g := getCachedRow pk row st0
  let cached := g.1
  let st := g.2
  if (cached.bind (·.completed)) = some "yes" then ⟨none, st, [.vCacheSkip]⟩
  else if (cached.bind (·.sent)) = some false then ⟨none, st, [.vCacheSkip]⟩
  else
    match re.bringSheets with
    | .error m => ⟨some m, st, []⟩
    | .ok _ =>
      let sentValE : Except String String :=
        if (cached.bind (·.sent)) = some true then .ok cfg.statusValue
        else re.readSent
      match sentValE with
      | .error m => ⟨some m, st, []⟩
      | .ok sentVal =>
        if lowerStr sentVal ≠ lowerStr cfg.statusValue then
          let st := setCachedRow pk row
            ⟨some false, none, none, none, some (sentVal = "")⟩ st
          ⟨none, st, [.vSkipNotSent, .vCacheSet]⟩
        else
          let crCached := (cached.bind (·.completedRaw)).getD ""
          let completedValE : Except String String :=
            if crCached ≠ "" then .ok crCached else re.readCompleted
          match completedValE with
          | .error m => ⟨some m, st, []⟩
          | .ok completedVal =>
            if completedVal ≠ "" ∧ lowerStr completedVal = "yes" then
              let st := setCachedRow pk row
                ⟨some true, none, some "yes", some completedVal, none⟩ st
              ⟨none, st, [.vSkipCompleted, .vCacheSet]⟩
            else
              let nmCached := (cached.bind (·.name)).getD ""
              let fullNameE : Except String String :=
                if nmCached ≠ "" then .ok nmCached else re.readName
              match fullNameE with
              | .error m => ⟨some m, st, []⟩
              | .ok fullName =>
                if fullName = "" then
                  let st := setCachedRow pk row
                    ⟨some true, none, none, none, some true⟩ st
                  ⟨none, st, [.vSkipNoName, .vCacheSet]⟩
                else
                  let st := setCachedRow pk row
                    ⟨some true, some fullName, none, none, none⟩ st
                  if dryRun then ⟨none, st, [.vCacheSet, .vDryRunSkip]⟩
                  else
                    match re.searchExn with
                    | some m => ⟨none, st, [.vCacheSet, .vRowError m]⟩
                    | none =>
                      match checkVerification re.onboarding re.onAll
                          cfg.completedYes cfg.completedNo with
                      | none => ⟨none, st, [.vCacheSet, .vCheck none]⟩
                      | some v =>
                        if v = cfg.completedYes ∨ v = cfg.completedNo then
                          let st := setCachedRow pk row
                            ⟨none, none,
                             some (if lowerStr v = "yes" then "yes" else "no"),
                             some v, none⟩ st
                          ⟨none, st, [.vCacheSet, .vCheck (some v), .vWrite v]⟩
                        else
                          ⟨none, st, [.vCacheSet, .vCheck (some v)]⟩

set_option maxHeartbeats 1600000 in
/-- C3: the reconciler's verdict follows the dual-source case analysis —
onboarding hit with progress 100 gives the yes-value, onboarding hit with
any other progress (including unknown) gives the no-value, roster-only hit
gives the yes-value, and the verdict is the unresolved `none` exactly when
the person is absent from both views, in which case the verifier performs
no sheet write for that row. -/
theorem checkVerification_spec :
    (∀ (onb : OnboardingResult) (onAll : Bool) (y n : String),
      (onb.found = true → onb.progress = some 100 →
        checkVerification onb onAll y n = some y) ∧
      (onb.found = true → onb.progress ≠ some 100 →
        checkVerification onb onAll y n = some n) ∧
      (onb.found = false → onAll = true →
        checkVerification onb onAll y n = some y) ∧
      (checkVerification onb onAll y n = none ↔
        onb.found = false ∧ onAll = false)) ∧
    (∀ (re : VerifyRowEnv) (cfg : VerifyCfg) (pk : Profile) (row : Nat)
        (dryRun : Bool) (st : CacheState),
      checkVerification re.onboarding re.onAll cfg.completedYes
          cfg.completedNo = none →
      ∀ v, VEv.vWrite v ∉ (verifyRow re cfg pk row dryRun st).trace) := by
  constructor
  · intro onb onAll y n
    refine ⟨?_, ?_, ?_, ?_⟩
    · intro hf hp; simp [checkVerification, hf, hp]
    · intro hf hp; simp [checkVerification, hf, hp]
    · intro hf ha; simp [checkVerification, hf, ha]
    · unfold checkVerification
      rcases hf : onb.found <;> rcases ha : onAll <;>
        by_cases hp : onb.progress = some 100 <;> simp [hp]
  · intro re cfg pk row dryRun st hnone v
    unfold verifyRow
    simp only [hnone]
    aesop

/-- Witness for C3's caller clause: with a person absent from both views,
the verdict is unresolved and the row trace contains no write. -/
theorem checkVerification_spec_witness :
    checkVerification ⟨false, none⟩ false "YES" "NO" = none ∧
    VEv.vWrite "YES" ∉ (verifyRow
      ⟨.ok (), .ok "Yes", .ok "", .ok "Caden Lepple", none, ⟨false, none⟩,
        false⟩
      ⟨"Yes", "YES", "NO"⟩ .a 2 false ⟨none, emptyCache⟩).trace := by
  refine ⟨rfl, ?_⟩
  exact checkVerification_spec.2
    ⟨.ok (), .ok "Yes", .ok "", .ok "Caden Lepple", none, ⟨false, none⟩, false⟩
    ⟨"Yes", "YES", "NO"⟩ .a 2 false ⟨none, emptyCache⟩ rfl "YES"

/-! ## Orchestrator row loop (`src/index.js`, main)

The cache-aware `main` of `index.js` iterates rows from `startRow`.  Each
iteration: bounds check (explicit end row, or the consecutive-empty-row
stop), cache fast path, switch to the sheet tab, completed-status check,
row read, cache update, dry-run short-circuit, the Gusto workflow, and on
success the sheet write plus cache update.  Browser/sheet interactions per
row are supplied by an environment; each can throw, and `main` has no
try/catch inside the loop, so such an exception propagates (`Except.error`)
and ends the whole run — only `addContractor` catches its own step
exceptions and returns a failed `WorkflowRun`, which is recorded in
`errors` and the loop continues.  Pacing sleeps are pure delays and are
not modelled.  The trace records one `rowStart` per iteration plus the
events of the taken path; the loop is given fuel (the real loop can run
unboundedly; every claim proved below holds for every fuel). -/

def maxEmptyRows : Nat := 3

structure Contractor where
  firstName : String
  lastName : String
  email : String
  fullName : String
deriving DecidableEq, Repr

/-- Outcomes of the external interactions `main` performs for one row. -/
structure RowEnv where
  bringSheets : Except String Unit
  isCompleted : Except String Bool
  readRow : Except String (Option Contractor)
  bringGusto : Except String Unit
  steps : Nat → Except String Unit
  mark : Except String Unit

structure IndexOpts where
  endRow : Option Nat
  dryRun : Bool
  noCache : Bool
deriving DecidableEq, Repr

/-- One element of `results.errors`. -/
structure ErrEntry where
  row : Nat
  name : String
  errors : List String
  stepsCompleted : List String
deriving DecidableEq, Repr

structure RunResults where
  processed : Nat
  skipped : Nat
  cachedCnt : Nat
  failed : Nat
  errors : List ErrEntry
deriving DecidableEq, Repr

inductive Ev
  | rowStart (row : Nat)
  | cacheSkip (row : Nat)
  | doneSkip (row : Nat)
  | emptySkip (row : Nat)
  | cacheSet (row : Nat)
  | dryRunSkip (row : Nat)
  | workflow (row : Nat) (run : WorkflowRun)
  | sheetWrite (row : Nat)
  | stopEnd (row : Nat)
  | stopEmpty (row : Nat)
deriving DecidableEq, Repr

/-- The cache fast path: with `--no-cache` the cache is not consulted at
all, otherwise `getCachedRow` is (which may load the file into memory). -/
def cacheFast (opts : IndexOpts) (pk : Profile) (row : Nat) (st : CacheState) :
    Option CacheEntry × CacheState :=
  if opts.noCache then (none, st) else getCachedRow pk row st

/-- The row loop of `main` in `src/index.js`. -/
def indexLoop (env : Nat → RowEnv) (opts : IndexOpts) (pk : Profile) :
    Nat → Nat → Nat → RunResults → CacheState → List Ev →
    Except String (RunResults × CacheState × List Ev)
  | 0, _, _, res, st, tr => .ok (res, st, tr)
  | fuel + 1, row, cEmpty, res, st, tr =>
    let body : Unit → Except String (RunResults × CacheState × List Ev) :=
      fun _ =>
      let cs := cacheFast opts pk row st
      let cached := cs.1
      let st1 := cs.2
      if (cached.bind (·.sent)) = some true then
        indexLoop env opts pk fuel (row + 1) 0
          { res with cachedCnt := res.cachedCnt + 1 } st1
          (tr ++ [.rowStart row, .cacheSkip row])
      else
        match (env row).bringSheets with
        | .error m => .error m
        | .ok _ =>
          match (env row).isCompleted with
          | .error m => .error m
          | .ok true =>
            let st2 := setCachedRow pk row ⟨some true, none, none, none, none⟩ st1
            indexLoop env opts pk fuel (row + 1) 0
              { res with skipped := res.skipped + 1 } st2
              (tr ++ [.rowStart row, .doneSkip row, .cacheSet row])
          | .ok false =>
            match (env row).readRow with
            | .error m => .error m
            | .ok none =>
              let st2 := setCachedRow pk row
                ⟨some false, none, none, none, some true⟩ st1
              indexLoop env opts pk fuel (row + 1) (cEmpty + 1)
                { res with skipped := res.skipped + 1 } st2
                (tr ++ [.rowStart row, .emptySkip row, .cacheSet row])
            | .ok (some c) =>
              let st2 := setCachedRow pk row
                ⟨none, some c.fullName, none, none, none⟩ st1
              if opts.dryRun then
                indexLoop env opts pk fuel (row + 1) 0
                  { res with processed := res.processed + 1 } st2
                  (tr ++ [.rowStart row, .cacheSet row, .dryRunSkip row])
              else
                match (env row).bringGusto with
                | .error m => .error m
                | .ok _ =>
                  let ex := addContractor (c.firstName ++ " " ++ c.lastName)
                    (env row).steps
                  if ex.run.success then
                    match (env row).bringSheets with
                    | .error m => .error m
                    | .ok _ =>
                      match (env row).mark with
                      | .error m => .error m
                      | .ok _ =>
                        let st3 := setCachedRow pk row
                          ⟨some true, some c.fullName, none, none, none⟩ st2
                        indexLoop env opts pk fuel (row + 1) 0
                          { res with processed := res.processed + 1 } st3
                          (tr ++ [.rowStart row, .cacheSet row,
                            .workflow row ex.run, .sheetWrite row,
                            .cacheSet row])
                  else
                    let er : ErrEntry :=
                      ⟨row, ex.run.name, ex.run.errors, ex.run.stepsCompleted⟩
                    indexLoop env opts pk fuel (row + 1) 0
                      { res with
                          failed := res.failed + 1
                          errors := res.errors ++ [er] } st2
                      (tr ++ [.rowStart row, .cacheSet row,
                        .workflow row ex.run])
    match opts.endRow with
    | some e =>
      if e < row then .ok (res, st, tr ++ [.stopEnd row]) else body ()
    | none =>
      if maxEmptyRows ≤ cEmpty then .ok (res, st, tr ++ [.stopEmpty row])
      else body ()

/-! ### C2: what aborts the batch and what does not -/

/-- The sheet/browser interactions of a row all succeed (with whatever
values); the workflow steps may still do anything. -/
def SheetOk (re : RowEnv) : Prop :=
  re.bringSheets = .ok () ∧ (∃ b, re.isCompleted = .ok b) ∧
  (∃ co, re.readRow = .ok co) ∧ re.bringGusto = .ok () ∧ re.mark = .ok ()

/-- An error entry that faithfully records a failed workflow run of its
row: the row was read, its run failed, and the entry carries that run's
name, error messages and ordered completed-steps list. -/
def GenuineFailure (env : Nat → RowEnv) (er : ErrEntry) : Prop :=
  ∃ c, (env er.row).readRow = .ok (some c) ∧
    (addContractor (c.firstName ++ " " ++ c.lastName)
      (env er.row).steps).run.success = false ∧
    er = ⟨er.row,
      (addContractor (c.firstName ++ " " ++ c.lastName)
        (env er.row).steps).run.name,
      (addContractor (c.firstName ++ " " ++ c.lastName)
        (env er.row).steps).run.errors,
      (addContractor (c.firstName ++ " " ++ c.lastName)
        (env er.row).steps).run.stepsCompleted⟩

def nameBoxMsg : String :=
  "Could not find the Google Sheets Name Box after retries. Is the Sheets tab in focus?"

def c2Contractor : Contractor := ⟨"Caden", "Lepple", "c@example.com", "Caden Lepple"⟩

def okRowEnv (c : Contractor) : RowEnv :=
  ⟨.ok (), .ok false, .ok (some c), .ok (), fun _ => .ok (), .ok ()⟩

/-- Row 2's completed-status read throws (the Name Box lookup inside
`readCell` fails); every other row is healthy. -/
def c2Env : Nat → RowEnv := fun r =>
  if r = 2 then ⟨.ok (), .error nameBoxMsg, .ok none, .ok (), fun _ => .ok (), .ok ()⟩
  else okRowEnv c2Contractor

/-- C2 as stated is false: a sheet-read failure while processing row 2 —
well after the pre-loop setup — is not caught at the orchestrator
boundary; it propagates out of the loop and aborts the whole run, so row 3
is never processed and no run summary is produced. -/
theorem indexLoop_midloop_abort_counterexample :
    indexLoop c2Env ⟨some 3, false, true⟩ .a 10 2 0 ⟨0, 0, 0, 0, []⟩
      ⟨none, emptyCache⟩ [] = .error nameBoxMsg := by
  rfl

/-! ### Step equations of the row loop

One unfolding equation per branch of an iteration, shared by the
consecutive-empty-halt and dry-run claims. -/

/-- The loop's guard lets the iteration body run: either auto-end mode
with fewer than three consecutive empties, or an end row not yet passed. -/
def BodyGuard (opts : IndexOpts) (row c : Nat) : Prop :=
  (opts.endRow = none ∧ c < maxEmptyRows) ∨
  (∃ e, opts.endRow = some e ∧ ¬ e < row)

/-- The cache fast path would skip this row as already sent. -/
def SentTrueAt (opts : IndexOpts) (pk : Profile) (st : CacheState)
    (row : Nat) : Prop :=
  ((cacheFast opts pk row st).1.bind (·.sent)) = some true

/-- This row's reads succeed and find no data: the empty-row case. -/
def EmptyRowAt (env : Nat → RowEnv) (i : Nat) : Prop :=
  (env i).bringSheets = .ok () ∧ (env i).isCompleted = .ok false ∧
  (env i).readRow = .ok none

lemma indexLoop_step_stopEmpty (env : Nat → RowEnv) (opts : IndexOpts)
    (pk : Profile) (fuel row c : Nat) (res : RunResults) (st : CacheState)
    (tr : List Ev) (hend : opts.endRow = none) (hc : maxEmptyRows ≤ c) :
    indexLoop env opts pk (fuel + 1) row c res st tr =
      .ok (res, st, tr ++ [.stopEmpty row]) := by
  simp only [indexLoop, hend]
  rw [if_pos hc]

lemma indexLoop_step_cacheSkip (env : Nat → RowEnv) (opts : IndexOpts)
    (pk : Profile) (fuel row c : Nat) (res : RunResults) (st : CacheState)
    (tr : List Ev) (hguard : BodyGuard opts row c)
    (hsent : SentTrueAt opts pk st row) :
    indexLoop env opts pk (fuel + 1) row c res st tr =
      indexLoop env opts pk fuel (row + 1) 0
        { res with cachedCnt := res.cachedCnt + 1 } (cacheFast opts pk row st).2
        (tr ++ [.rowStart row, .cacheSkip row]) := by
  unfold SentTrueAt at hsent
  simp only [indexLoop]
  rcases hguard with ⟨hend, hc⟩ | ⟨e, hend, hlt⟩
  · simp only [hend]
    rw [if_neg (by omega), if_pos hsent]
  · simp only [hend]
    rw [if_neg hlt, if_pos hsent]

lemma indexLoop_step_doneSkip (env : Nat → RowEnv) (opts : IndexOpts)
    (pk : Profile) (fuel row c : Nat) (res : RunResults) (st : CacheState)
    (tr : List Ev) (hguard : BodyGuard opts row c)
    (hsent : ¬ SentTrueAt opts pk st row)
    (hbs : (env row).bringSheets = .ok ())
    (hic : (env row).isCompleted = .ok true) :
    indexLoop env opts pk (fuel + 1) row c res st tr =
      indexLoop env opts pk fuel (row + 1) 0
        { res with skipped := res.skipped + 1 }
        (setCachedRow pk row ⟨some true, none, none, none, none⟩
          (cacheFast opts pk row st).2)
        (tr ++ [.rowStart row, .doneSkip row, .cacheSet row]) := by
  unfold SentTrueAt at hsent
  simp only [indexLoop, hbs, hic]
  rcases hguard with ⟨hend, hc⟩ | ⟨e, hend, hlt⟩
  · simp only [hend]
    rw [if_neg (by omega), if_neg hsent]
  · simp only [hend]
    rw [if_neg hlt, if_neg hsent]

lemma indexLoop_step_emptySkip (env : Nat → RowEnv) (opts : IndexOpts)
    (pk : Profile) (fuel row c : Nat) (res : RunResults) (st : CacheState)
    (tr : List Ev) (hguard : BodyGuard opts row c)
    (hsent : ¬ SentTrueAt opts pk st row)
    (hbs : (env row).bringSheets = .ok ())
    (hic : (env row).isCompleted = .ok false)
    (hrr : (env row).readRow = .ok none) :
    indexLoop env opts pk (fuel + 1) row c res st tr =
      indexLoop env opts pk fuel (row + 1) (c + 1)
        { res with skipped := res.skipped + 1 }
        (setCachedRow pk row ⟨some false, none, none, none, some true⟩
          (cacheFast opts pk row st).2)
        (tr ++ [.rowStart row, .emptySkip row, .cacheSet row]) := by
  unfold SentTrueAt at hsent
  simp only [indexLoop, hbs, hic, hrr]
  rcases hguard with ⟨hend, hc⟩ | ⟨e, hend, hlt⟩
  · simp only [hend]
    rw [if_neg (by omega), if_neg hsent]
  · simp only [hend]
    rw [if_neg hlt, if_neg hsent]

lemma indexLoop_step_dryRun (env : Nat → RowEnv) (opts : IndexOpts)
    (pk : Profile) (fuel row c : Nat) (res : RunResults) (st : CacheState)
    (tr : List Ev) (con : Contractor) (hguard : BodyGuard opts row c)
    (hsent : ¬ SentTrueAt opts pk st row)
    (hbs : (env row).bringSheets = .ok ())
    (hic : (env row).isCompleted = .ok false)
    (hrr : (env row).readRow = .ok (some con))
    (hdr : opts.dryRun = true) :
    indexLoop env opts pk (fuel + 1) row c res st tr =
      indexLoop env opts pk fuel (row + 1) 0
        { res with processed := res.processed + 1 }
        (setCachedRow pk row ⟨none, some con.fullName, none, none, none⟩
          (cacheFast opts pk row st).2)
        (tr ++ [.rowStart row, .cacheSet row, .dryRunSkip row]) := by
  unfold SentTrueAt at hsent
  simp only [indexLoop, hbs, hic, hrr]
  rcases hguard with ⟨hend, hc⟩ | ⟨e, hend, hlt⟩
  · simp only [hend]
    rw [if_neg (by omega), if_neg hsent, if_pos hdr]
  · simp only [hend]
    rw [if_neg hlt, if_neg hsent, if_pos hdr]

lemma indexLoop_step_workflowSuccess (env : Nat → RowEnv)
    (opts : IndexOpts) (pk : Profile) (fuel row c : Nat) (res : RunResults)
    (st : CacheState) (tr : List Ev) (con : Contractor)
    (hguard : BodyGuard opts row c)
    (hsent : ¬ SentTrueAt opts pk st row)
    (hbs : (env row).bringSheets = .ok ())
    (hic : (env row).isCompleted = .ok false)
    (hrr : (env row).readRow = .ok (some con))
    (hdr : opts.dryRun = false)
    (hbg : (env row).bringGusto = .ok ())
    (hmk : (env row).mark = .ok ())
    (hsucc : (addContractor (con.firstName ++ " " ++ con.lastName)
      (env row).steps).run.success = true) :
    indexLoop env opts pk (fuel + 1) row c res st tr =
      indexLoop env opts pk fuel (row + 1) 0
        { res with processed := res.processed + 1 }
        (setCachedRow pk row ⟨some true, some con.fullName, none, none, none⟩
          (setCachedRow pk row ⟨none, some con.fullName, none, none, none⟩
            (cacheFast opts pk row st).2))
        (tr ++ [.rowStart row, .cacheSet row,
          .workflow row (addContractor
            (con.firstName ++ " " ++ con.lastName) (env row).steps).run,
          .sheetWrite row, .cacheSet row]) := by
  unfold SentTrueAt at hsent
  simp only [indexLoop, hbs, hic, hrr, hbg, hmk]
  rcases hguard with ⟨hend, hc⟩ | ⟨e, hend, hlt⟩
  · simp only [hend]
    rw [if_neg (by omega), if_neg hsent, if_neg (by simp [hdr]),
      if_pos hsucc]
  · simp only [hend]
    rw [if_neg hlt, if_neg hsent, if_neg (by simp [hdr]), if_pos hsucc]

lemma indexLoop_step_workflowFail (env : Nat → RowEnv) (opts : IndexOpts)
    (pk : Profile) (fuel row c : Nat) (res : RunResults) (st : CacheState)
    (tr : List Ev) (con : Contractor)
    (hguard : BodyGuard opts row c)
    (hsent : ¬ SentTrueAt opts pk st row)
    (hbs : (env row).bringSheets = .ok ())
    (hic : (env row).isCompleted = .ok false)
    (hrr : (env row).readRow = .ok (some con))
    (hdr : opts.dryRun = false)
    (hbg : (env row).bringGusto = .ok ())
    (hfail : (addContractor (con.firstName ++ " " ++ con.lastName)
      (env row).steps).run.success = false) :
    indexLoop env opts pk (fuel + 1) row c res st tr =
      indexLoop env opts pk fuel (row + 1) 0
        { res with
            failed := res.failed + 1
            errors := res.errors ++
              [⟨row,
                (addContractor (con.firstName ++ " " ++ con.lastName)
                  (env row).steps).run.name,
                (addContractor (con.firstName ++ " " ++ con.lastName)
                  (env row).steps).run.errors,
                (addContractor (con.firstName ++ " " ++ con.lastName)
                  (env row).steps).run.stepsCompleted⟩] }
        (setCachedRow pk row ⟨none, some con.fullName, none, none, none⟩
          (cacheFast opts pk row st).2)
        (tr ++ [.rowStart row, .cacheSet row,
          .workflow row (addContractor
            (con.firstName ++ " " ++ con.lastName) (env row).steps).run]) := by
  unfold SentTrueAt at hsent
  simp only [indexLoop, hbs, hic, hrr, hbg]
  rcases hguard with ⟨hend, hc⟩ | ⟨e, hend, hlt⟩
  · simp only [hend]
    rw [if_neg (by omega), if_neg hsent, if_neg (by simp [hdr]),
      if_neg (by simp [hfail])]
  · simp only [hend]
    rw [if_neg hlt, if_neg hsent, if_neg (by simp [hdr]),
      if_neg (by simp [hfail])]

/-- Row 2's workflow throws on step 4 (never reaches "ready"); everything
else, including row 3, is healthy. -/
def c2wEnv : Nat → RowEnv := fun r =>
  if r = 2 then
    { okRowEnv c2Contractor with
        steps := fun i =>
          if i = 3 then .error "timeout waiting for ready" else .ok () }
  else okRowEnv c2Contractor

/-- C2, amended: when every sheet/browser interaction in the loop
succeeds, the run never aborts; the summary's error list only ever grows,
and every entry in it is a genuine workflow failure carrying that run's
ordered completed-steps list; a row whose workflow fails appends exactly
its entry to the summary and the loop continues with the next row (the
step equation), so its entry is present in the final summary; and with an
explicit end row and enough fuel every row of the range is still visited.
(Sheet or tab failures inside the loop, by the counterexample, abort the
run instead.) -/
theorem indexLoop_sheet_ok_spec (env : Nat → RowEnv) (opts : IndexOpts)
    (pk : Profile) (henv : ∀ r, SheetOk (env r)) :
    (∀ (fuel row cEmpty : Nat) (res : RunResults) (st : CacheState)
      (tr : List Ev),
      ∃ res' st' tr',
        indexLoop env opts pk fuel row cEmpty res st tr =
          .ok (res', st', tr') ∧
        tr <+: tr' ∧
        res.errors <+: res'.errors ∧
        (∀ er ∈ res'.errors, er ∈ res.errors ∨ GenuineFailure env er) ∧
        (∀ e, opts.endRow = some e → e + 1 ≤ row + fuel →
          ∀ r, row ≤ r → r ≤ e → Ev.rowStart r ∈ tr')) ∧
    (∀ (fuel row c : Nat) (res : RunResults) (st : CacheState) (tr : List Ev)
      (con : Contractor),
      BodyGuard opts row c → ¬ SentTrueAt opts pk st row →
      (env row).isCompleted = .ok false →
      (env row).readRow = .ok (some con) → opts.dryRun = false →
      (addContractor (con.firstName ++ " " ++ con.lastName)
        (env row).steps).run.success = false →
      indexLoop env opts pk (fuel + 1) row c res st tr =
        indexLoop env opts pk fuel (row + 1) 0
          { res with
              failed := res.failed + 1
              errors := res.errors ++
                [⟨row,
                  (addContractor (con.firstName ++ " " ++ con.lastName)
                    (env row).steps).run.name,
                  (addContractor (con.firstName ++ " " ++ con.lastName)
                    (env row).steps).run.errors,
                  (addContractor (con.firstName ++ " " ++ con.lastName)
                    (env row).steps).run.stepsCompleted⟩] }
          (setCachedRow pk row ⟨none, some con.fullName, none, none, none⟩
            (cacheFast opts pk row st).2)
          (tr ++ [.rowStart row, .cacheSet row,
            .workflow row (addContractor
              (con.firstName ++ " " ++ con.lastName) (env row).steps).run])) ∧
    (∀ (fuel row c : Nat) (res : RunResults) (st : CacheState) (tr : List Ev)
      (con : Contractor),
      BodyGuard opts row c → ¬ SentTrueAt opts pk st row →
      (env row).isCompleted = .ok false →
      (env row).readRow = .ok (some con) → opts.dryRun = false →
      (addContractor (con.firstName ++ " " ++ con.lastName)
        (env row).steps).run.success = false →
      ∃ res' st' tr',
        indexLoop env opts pk (fuel + 1) row c res st tr =
          .ok (res', st', tr') ∧
        (⟨row,
          (addContractor (con.firstName ++ " " ++ con.lastName)
            (env row).steps).run.name,
          (addContractor (con.firstName ++ " " ++ con.lastName)
            (env row).steps).run.errors,
          (addContractor (con.firstName ++ " " ++ con.lastName)
            (env row).steps).run.stepsCompleted⟩ : ErrEntry) ∈
          res'.errors) := by
  have hA : ∀ (fuel row cEmpty : Nat) (res : RunResults) (st : CacheState)
      (tr : List Ev),
      ∃ res' st' tr',
        indexLoop env opts pk fuel row cEmpty res st tr =
          .ok (res', st', tr') ∧
        tr <+: tr' ∧
        res.errors <+: res'.errors ∧
        (∀ er ∈ res'.errors, er ∈ res.errors ∨ GenuineFailure env er) ∧
        (∀ e, opts.endRow = some e → e + 1 ≤ row + fuel →
          ∀ r, row ≤ r → r ≤ e → Ev.rowStart r ∈ tr') := by
    intro fuel
    induction fuel with
    | zero =>
      intro row cEmpty res st tr
      exact ⟨res, st, tr, rfl, List.prefix_refl _, List.prefix_refl _,
        fun er h => .inl h, fun e _ hle r hr1 hr2 => by omega⟩
    | succ fuel ih =>
      intro row cEmpty res st tr
      obtain ⟨hbs, ⟨b, hic⟩, ⟨co, hrr⟩, hbg, hmk⟩ := henv row
      have step : ∀ (evs : List Ev) (cE2 : Nat) (res2 : RunResults)
          (st2 : CacheState),
          Ev.rowStart row ∈ evs →
          res.errors <+: res2.errors →
          (∀ er ∈ res2.errors, er ∈ res.errors ∨ GenuineFailure env er) →
          ∃ res' st' tr',
            indexLoop env opts pk fuel (row + 1) cE2 res2 st2 (tr ++ evs) =
              .ok (res', st', tr') ∧
            tr <+: tr' ∧
            res.errors <+: res'.errors ∧
            (∀ er ∈ res'.errors, er ∈ res.errors ∨ GenuineFailure env er) ∧
            (∀ e, opts.endRow = some e → e + 1 ≤ row + (fuel + 1) →
              ∀ r, row ≤ r → r ≤ e → Ev.rowStart r ∈ tr') := by
        intro evs cE2 res2 st2 hmem hpfx2 herr2
        obtain ⟨res', st', tr', hrun, hpre, hegrow, herr, hrow⟩ :=
          ih (row + 1) cE2 res2 st2 (tr ++ evs)
        refine ⟨res', st', tr', hrun,
          ((tr.prefix_append evs).trans hpre), hpfx2.trans hegrow, ?_, ?_⟩
        · intro er her
          rcases herr er her with h | h
          · exact herr2 er h
          · exact .inr h
        · intro e hende hle r hr1 hr2
          rcases Nat.lt_or_ge row r with hlt | hge
          · exact hrow e hende (by omega) r (by omega) hr2
          · have hrw : r = row := by omega
            subst hrw
            exact hpre.subset (List.mem_append_right tr hmem)
      have halted : ∀ ev : Ev,
          ∃ res' st' tr',
            (Except.ok (res, st, tr ++ [ev]) :
                Except String (RunResults × CacheState × List Ev)) =
              .ok (res', st', tr') ∧
            tr <+: tr' ∧
            res.errors <+: res'.errors ∧
            (∀ er ∈ res'.errors, er ∈ res.errors ∨ GenuineFailure env er) := by
        intro ev
        exact ⟨res, st, tr ++ [ev], rfl, tr.prefix_append [ev],
          List.prefix_refl _, fun er h => .inl h⟩
      simp only [indexLoop]
      split
      · -- endRow = some e
        next e hend =>
        split
        · -- past the end row: stop
          next hlt =>
          obtain ⟨res', st', tr', h1, h2, h3, h4⟩ := halted (.stopEnd row)
          refine ⟨res', st', tr', h1, h2, h3, h4, ?_⟩
          intro e' hende hle r hr1 hr2
          rw [hend] at hende
          cases hende
          omega
        · next hlt =>
          split
          · exact step _ 0 _ _ (by simp) (List.prefix_refl _)
              (fun er h => .inl h)
          · next hsent =>
            split
            · next m heq => rw [hbs] at heq; cases heq
            · split
              · next m heq => rw [hic] at heq; cases heq
              · -- isCompleted = ok true
                exact step _ 0 _ _ (by simp) (List.prefix_refl _)
                  (fun er h => .inl h)
              · -- isCompleted = ok false
                split
                · next m heq => rw [hrr] at heq; cases heq
                · -- readRow = ok none
                  exact step _ (cEmpty + 1) _ _ (by simp) (List.prefix_refl _)
                    (fun er h => .inl h)
                · -- readRow = ok (some c)
                  next c heq =>
                  split
                  · exact step _ 0 _ _ (by simp) (List.prefix_refl _)
                      (fun er h => .inl h)
                  · split
                    · next m heq2 => rw [hbg] at heq2; cases heq2
                    · split
                      · -- workflow succeeded
                        split
                        · next m heq2 => cases heq2
                        · split
                          · next m heq2 => rw [hmk] at heq2; cases heq2
                          · exact step _ 0 _ _ (by simp) (List.prefix_refl _)
                              (fun er h => .inl h)
                      · -- workflow failed: record and continue
                        next hsucc =>
                        refine step _ 0 _ _ (by simp)
                          (List.prefix_append _ _) ?_
                        intro er her
                        simp only [List.mem_append, List.mem_singleton] at her
                        rcases her with h | h
                        · exact .inl h
                        · refine .inr ⟨c, ?_, ?_, ?_⟩
                          · rw [h]; exact heq
                          · rw [h]; simpa using hsucc
                          · rw [h]
      · -- endRow = none
        next hend =>
        split
        · -- three consecutive empty rows: stop
          obtain ⟨res', st', tr', h1, h2, h3, h4⟩ := halted (.stopEmpty row)
          exact ⟨res', st', tr', h1, h2, h3, h4, fun e hende => by
            rw [hend] at hende; cases hende⟩
        · split
          · exact step _ 0 _ _ (by simp) (List.prefix_refl _)
              (fun er h => .inl h)
          · next hsent =>
            split
            · next m heq => rw [hbs] at heq; cases heq
            · split
              · next m heq => rw [hic] at heq; cases heq
              · exact step _ 0 _ _ (by simp) (List.prefix_refl _)
                  (fun er h => .inl h)
              · split
                · next m heq => rw [hrr] at heq; cases heq
                · exact step _ (cEmpty + 1) _ _ (by simp) (List.prefix_refl _)
                    (fun er h => .inl h)
                · next c heq =>
                  split
                  · exact step _ 0 _ _ (by simp) (List.prefix_refl _)
                      (fun er h => .inl h)
                  · split
                    · next m heq2 => rw [hbg] at heq2; cases heq2
                    · split
                      · split
                        · next m heq2 => cases heq2
                        · split
                          · next m heq2 => rw [hmk] at heq2; cases heq2
                          · exact step _ 0 _ _ (by simp) (List.prefix_refl _)
                              (fun er h => .inl h)
                      · next hsucc =>
                        refine step _ 0 _ _ (by simp)
                          (List.prefix_append _ _) ?_
                        intro er her
                        simp only [List.mem_append, List.mem_singleton] at her
                        rcases her with h | h
                        · exact .inl h
                        · refine .inr ⟨c, ?_, ?_, ?_⟩
                          · rw [h]; exact heq
                          · rw [h]; simpa using hsucc
                          · rw [h]
  refine ⟨hA, ?_, ?_⟩
  · intro fuel row c res st tr con hguard hsent hic hrr hdr hfail
    obtain ⟨hbs, -, -, hbg, -⟩ := henv row
    exact indexLoop_step_workflowFail env opts pk fuel row c res st tr con
      hguard hsent hbs hic hrr hdr hbg hfail
  · intro fuel row c res st tr con hguard hsent hic hrr hdr hfail
    obtain ⟨hbs, -, -, hbg, -⟩ := henv row
    rw [indexLoop_step_workflowFail env opts pk fuel row c res st tr con
      hguard hsent hbs hic hrr hdr hbg hfail]
    obtain ⟨res', st', tr', hrun, -, hegrow, -, -⟩ :=
      hA fuel (row + 1) 0 _ _ _
    exact ⟨res', st', tr', hrun, hegrow.subset (by simp)⟩

/-- Witness for C2 amended: with healthy sheet interactions and row 2's
workflow failing at its 4th step, the run completes normally, rows 2 and
3 are both visited, every recorded error is genuine, and the failed row's
entry — with its ordered completed-steps list — is present in the final
summary. -/
theorem indexLoop_sheet_ok_spec_witness :
    (∃ res' st' tr',
      indexLoop c2wEnv ⟨some 3, false, true⟩ .a 10 2 0 ⟨0, 0, 0, 0, []⟩
        ⟨none, emptyCache⟩ [] = .ok (res', st', tr') ∧
      ([] : List Ev) <+: tr' ∧
      ([] : List ErrEntry) <+: res'.errors ∧
      (∀ er ∈ res'.errors,
        er ∈ (⟨0, 0, 0, 0, []⟩ : RunResults).errors ∨
          GenuineFailure c2wEnv er) ∧
      (∀ e, (⟨some 3, false, true⟩ : IndexOpts).endRow = some e →
        e + 1 ≤ 2 + 10 → ∀ r, 2 ≤ r → r ≤ e → Ev.rowStart r ∈ tr')) ∧
    (∃ res' st' tr',
      indexLoop c2wEnv ⟨some 3, false, true⟩ .a 10 2 0 ⟨0, 0, 0, 0, []⟩
        ⟨none, emptyCache⟩ [] = .ok (res', st', tr') ∧
      (⟨2, "Caden Lepple", ["timeout waiting for ready"],
        ["navigate_add_person", "basics_form", "role_start_date"]⟩ :
          ErrEntry) ∈ res'.errors) := by
  have henv : ∀ r, SheetOk (c2wEnv r) := by
    intro r
    by_cases hr : r = 2 <;>
      exact ⟨by simp [c2wEnv, okRowEnv, hr],
        ⟨false, by simp [c2wEnv, okRowEnv, hr]⟩,
        ⟨some c2Contractor, by simp [c2wEnv, okRowEnv, hr]⟩,
        by simp [c2wEnv, okRowEnv, hr], by simp [c2wEnv, okRowEnv, hr]⟩
  constructor
  · exact (indexLoop_sheet_ok_spec c2wEnv ⟨some 3, false, true⟩ .a henv).1
      10 2 0 ⟨0, 0, 0, 0, []⟩ ⟨none, emptyCache⟩ []
  · exact (indexLoop_sheet_ok_spec c2wEnv ⟨some 3, false, true⟩ .a henv).2.2
      9 2 0 ⟨0, 0, 0, 0, []⟩ ⟨none, emptyCache⟩ [] c2Contractor
      (Or.inr ⟨3, rfl, by omega⟩)
      (by simp [SentTrueAt, cacheFast]) rfl rfl rfl rfl

/-! ### C7: the consecutive-empty-row stop -/

lemma cacheFast_fst_set_ne (opts : IndexOpts) (pk : Profile)
    (st : CacheState) (row m : Nat) (d : CacheEntry) (hm : m ≠ row) :
    (cacheFast opts pk m
      (setCachedRow pk row d (cacheFast opts pk row st).2)).1 =
    (cacheFast opts pk m st).1 := by
  unfold cacheFast
  by_cases hnc : opts.noCache = true
  · simp [hnc]
  · simp only [if_neg hnc]
    have h1 : getVal pk m
        (setCachedRow pk row d (getCachedRow pk row st).2) =
        getVal pk m (getCachedRow pk row st).2 :=
      getVal_setCachedRow_ne pk pk row m d _ (by tauto)
    have h2 : getVal pk m (getCachedRow pk row st).2 = getVal pk m st :=
      getVal_getCachedRow pk pk row m st
    exact h1.trans h2

lemma sentTrueAt_set_ne (opts : IndexOpts) (pk : Profile) (st : CacheState)
    (row m : Nat) (d : CacheEntry) (hm : m ≠ row) :
    SentTrueAt opts pk
      (setCachedRow pk row d (cacheFast opts pk row st).2) m ↔
    SentTrueAt opts pk st m := by
  unfold SentTrueAt
  rw [cacheFast_fst_set_ne opts pk st row m d hm]

/-- Starting anywhere inside (or just past) a zone of three empty rows
`k..k+2` with the counter at least as large as the number of empty rows
already seen, the loop never touches a row outside the zone, and with a
counter that exactly matches and enough fuel it stops at row `k + 3`. -/
lemma indexLoop_empty_zone (env : Nat → RowEnv) (opts : IndexOpts)
    (pk : Profile) (k : Nat) (hend : opts.endRow = none)
    (hempty : ∀ m, k ≤ m → m ≤ k + 2 → EmptyRowAt env m) :
    ∀ (fuel i c : Nat) (res : RunResults) (st : CacheState) (tr : List Ev),
      k ≤ i → i ≤ k + 3 → i - k ≤ c →
      (∀ m, i ≤ m → m ≤ k + 2 → ¬ SentTrueAt opts pk st m) →
      ∃ res' st' tr',
        indexLoop env opts pk fuel i c res st tr = .ok (res', st', tr') ∧
        (∀ r, Ev.rowStart r ∈ tr' →
          Ev.rowStart r ∈ tr ∨ (k ≤ r ∧ r ≤ k + 2)) ∧
        (k + 4 - i ≤ fuel → c = i - k → Ev.stopEmpty (k + 3) ∈ tr') := by
  intro fuel
  induction fuel with
  | zero =>
    intro i c res st tr hki hik hc hsent
    exact ⟨res, st, tr, rfl, fun r hr => .inl hr, fun hf => by omega⟩
  | succ fuel ih =>
    intro i c res st tr hki hik hc hsent
    by_cases hc3 : maxEmptyRows ≤ c
    · refine ⟨res, st, tr ++ [.stopEmpty i],
        indexLoop_step_stopEmpty env opts pk fuel i c res st tr hend hc3,
        ?_, ?_⟩
      · intro r hr
        rcases List.mem_append.mp hr with h | h
        · exact .inl h
        · simp at h
      · intro hf hcik
        have h3 : maxEmptyRows = 3 := rfl
        have hik3 : i = k + 3 := by omega
        subst hik3
        exact List.mem_append_right _ (by simp)
    · have hc' : c < 3 := by
        have h3 : maxEmptyRows = 3 := rfl
        omega
      have hik2 : i ≤ k + 2 := by omega
      obtain ⟨hbs, hic, hrr⟩ := hempty i hki hik2
      have hstep := indexLoop_step_emptySkip env opts pk fuel i c res st tr
        (Or.inl ⟨hend, by omega⟩) (hsent i (Nat.le_refl _) hik2) hbs hic hrr
      have hsent2 : ∀ m, i + 1 ≤ m → m ≤ k + 2 →
          ¬ SentTrueAt opts pk
            (setCachedRow pk i ⟨some false, none, none, none, some true⟩
              (cacheFast opts pk i st).2) m := by
        intro m hm1 hm2 hcon
        exact hsent m (by omega) hm2
          ((sentTrueAt_set_ne opts pk st i m _ (by omega)).mp hcon)
      obtain ⟨res', st', tr', hrun, hmem, hstop⟩ := ih (i + 1) (c + 1)
        { res with skipped := res.skipped + 1 }
        (setCachedRow pk i ⟨some false, none, none, none, some true⟩
          (cacheFast opts pk i st).2)
        (tr ++ [.rowStart i, .emptySkip i, .cacheSet i])
        (by omega) (by omega) (by omega) hsent2
      refine ⟨res', st', tr', hstep.trans hrun, ?_, ?_⟩
      · intro r hr
        rcases hmem r hr with h | h
        · rcases List.mem_append.mp h with h' | h'
          · exact .inl h'
          · have hri : r = i := by
              simp only [List.mem_cons, List.mem_singleton,
                List.not_mem_nil, or_false] at h'
              rcases h' with h'' | h'' | h''
              · injection h'' with h''
              · cases h''
              · cases h''
            subst hri
            exact .inr ⟨hki, hik2⟩
        · exact .inr h
      · intro hf hcik
        exact hstop (by omega) (by omega)

/-- C7: with no end row configured and rows `k..k+2` all empty (reads
succeed and find nothing, and the cache does not skip them), the loop
started at row `k` returns normally (an empty row is an end-of-data
signal, not an error), visits no row outside `k..k+2`, and with a fresh
counter and enough fuel stops at row `k + 3` — plus, every non-empty row
resets the consecutive-empty counter to 0: a cached row, an
already-completed row, a dry-run-processed row, and a really-processed
row whether its workflow succeeds or fails; only an empty row increments
the counter. -/
theorem indexLoop_empty_halt_spec (env : Nat → RowEnv) (opts : IndexOpts)
    (pk : Profile) (k : Nat) (hend : opts.endRow = none)
    (hempty : ∀ m, k ≤ m → m ≤ k + 2 → EmptyRowAt env m) :
    (∀ (fuel c : Nat) (res : RunResults) (st : CacheState) (tr : List Ev),
      (∀ m, k ≤ m → m ≤ k + 2 → ¬ SentTrueAt opts pk st m) →
      ∃ res' st' tr',
        indexLoop env opts pk fuel k c res st tr = .ok (res', st', tr') ∧
        (∀ r, Ev.rowStart r ∈ tr' →
          Ev.rowStart r ∈ tr ∨ (k ≤ r ∧ r ≤ k + 2)) ∧
        (4 ≤ fuel → c = 0 → Ev.stopEmpty (k + 3) ∈ tr')) ∧
    (∀ (fuel row c : Nat) (res : RunResults) (st : CacheState) (tr : List Ev),
      c < maxEmptyRows → SentTrueAt opts pk st row →
      indexLoop env opts pk (fuel + 1) row c res st tr =
        indexLoop env opts pk fuel (row + 1) 0
          { res with cachedCnt := res.cachedCnt + 1 }
          (cacheFast opts pk row st).2
          (tr ++ [.rowStart row, .cacheSkip row])) ∧
    (∀ (fuel row c : Nat) (res : RunResults) (st : CacheState) (tr : List Ev),
      c < maxEmptyRows → ¬ SentTrueAt opts pk st row →
      (env row).bringSheets = .ok () → (env row).isCompleted = .ok true →
      indexLoop env opts pk (fuel + 1) row c res st tr =
        indexLoop env opts pk fuel (row + 1) 0
          { res with skipped := res.skipped + 1 }
          (setCachedRow pk row ⟨some true, none, none, none, none⟩
            (cacheFast opts pk row st).2)
          (tr ++ [.rowStart row, .doneSkip row, .cacheSet row])) ∧
    (∀ (fuel row c : Nat) (res : RunResults) (st : CacheState) (tr : List Ev)
      (con : Contractor),
      c < maxEmptyRows → ¬ SentTrueAt opts pk st row →
      (env row).bringSheets = .ok () → (env row).isCompleted = .ok false →
      (env row).readRow = .ok (some con) → opts.dryRun = true →
      indexLoop env opts pk (fuel + 1) row c res st tr =
        indexLoop env opts pk fuel (row + 1) 0
          { res with processed := res.processed + 1 }
          (setCachedRow pk row ⟨none, some con.fullName, none, none, none⟩
            (cacheFast opts pk row st).2)
          (tr ++ [.rowStart row, .cacheSet row, .dryRunSkip row])) ∧
    (∀ (fuel row c : Nat) (res : RunResults) (st : CacheState) (tr : List Ev)
      (con : Contractor),
      c < maxEmptyRows → ¬ SentTrueAt opts pk st row →
      (env row).bringSheets = .ok () → (env row).isCompleted = .ok false →
      (env row).readRow = .ok (some con) → opts.dryRun = false →
      (env row).bringGusto = .ok () → (env row).mark = .ok () →
      (addContractor (con.firstName ++ " " ++ con.lastName)
        (env row).steps).run.success = true →
      indexLoop env opts pk (fuel + 1) row c res st tr =
        indexLoop env opts pk fuel (row + 1) 0
          { res with processed := res.processed + 1 }
          (setCachedRow pk row
            ⟨some true, some con.fullName, none, none, none⟩
            (setCachedRow pk row ⟨none, some con.fullName, none, none, none⟩
              (cacheFast opts pk row st).2))
          (tr ++ [.rowStart row, .cacheSet row,
            .workflow row (addContractor
              (con.firstName ++ " " ++ con.lastName) (env row).steps).run,
            .sheetWrite row, .cacheSet row])) ∧
    (∀ (fuel row c : Nat) (res : RunResults) (st : CacheState) (tr : List Ev)
      (con : Contractor),
      c < maxEmptyRows → ¬ SentTrueAt opts pk st row →
      (env row).bringSheets = .ok () → (env row).isCompleted = .ok false →
      (env row).readRow = .ok (some con) → opts.dryRun = false →
      (env row).bringGusto = .ok () →
      (addContractor (con.firstName ++ " " ++ con.lastName)
        (env row).steps).run.success = false →
      indexLoop env opts pk (fuel + 1) row c res st tr =
        indexLoop env opts pk fuel (row + 1) 0
          { res with
              failed := res.failed + 1
              errors := res.errors ++
                [⟨row,
                  (addContractor (con.firstName ++ " " ++ con.lastName)
                    (env row).steps).run.name,
                  (addContractor (con.firstName ++ " " ++ con.lastName)
                    (env row).steps).run.errors,
                  (addContractor (con.firstName ++ " " ++ con.lastName)
                    (env row).steps).run.stepsCompleted⟩] }
          (setCachedRow pk row ⟨none, some con.fullName, none, none, none⟩
            (cacheFast opts pk row st).2)
          (tr ++ [.rowStart row, .cacheSet row,
            .workflow row (addContractor
              (con.firstName ++ " " ++ con.lastName) (env row).steps).run])) ∧
    (∀ (fuel row c : Nat) (res : RunResults) (st : CacheState) (tr : List Ev),
      c < maxEmptyRows → ¬ SentTrueAt opts pk st row →
      (env row).bringSheets = .ok () → (env row).isCompleted = .ok false →
      (env row).readRow = .ok none →
      indexLoop env opts pk (fuel + 1) row c res st tr =
        indexLoop env opts pk fuel (row + 1) (c + 1)
          { res with skipped := res.skipped + 1 }
          (setCachedRow pk row ⟨some false, none, none, none, some true⟩
            (cacheFast opts pk row st).2)
          (tr ++ [.rowStart row, .emptySkip row, .cacheSet row])) := by
  refine ⟨?_, ?_, ?_, ?_, ?_, ?_, ?_⟩
  · intro fuel c res st tr hsent
    obtain ⟨res', st', tr', h1, h2, h3⟩ :=
      indexLoop_empty_zone env opts pk k hend hempty fuel k c res st tr
        (Nat.le_refl _) (by omega) (by omega) hsent
    exact ⟨res', st', tr', h1, h2, fun hf hc =>
      h3 (by omega) (by omega)⟩
  · intro fuel row c res st tr hc hsent
    exact indexLoop_step_cacheSkip env opts pk fuel row c res st tr
      (Or.inl ⟨hend, hc⟩) hsent
  · intro fuel row c res st tr hc hsent hbs hic
    exact indexLoop_step_doneSkip env opts pk fuel row c res st tr
      (Or.inl ⟨hend, hc⟩) hsent hbs hic
  · intro fuel row c res st tr con hc hsent hbs hic hrr hdr
    exact indexLoop_step_dryRun env opts pk fuel row c res st tr con
      (Or.inl ⟨hend, hc⟩) hsent hbs hic hrr hdr
  · intro fuel row c res st tr con hc hsent hbs hic hrr hdr hbg hmk hsucc
    exact indexLoop_step_workflowSuccess env opts pk fuel row c res st tr con
      (Or.inl ⟨hend, hc⟩) hsent hbs hic hrr hdr hbg hmk hsucc
  · intro fuel row c res st tr con hc hsent hbs hic hrr hdr hbg hfail
    exact indexLoop_step_workflowFail env opts pk fuel row c res st tr con
      (Or.inl ⟨hend, hc⟩) hsent hbs hic hrr hdr hbg hfail
  · intro fuel row c res st tr hc hsent hbs hic hrr
    exact indexLoop_step_emptySkip env opts pk fuel row c res st tr
      (Or.inl ⟨hend, hc⟩) hsent hbs hic hrr

/-- An environment whose rows are all empty. -/
def allEmptyEnv : Nat → RowEnv :=
  fun _ => ⟨.ok (), .ok false, .ok none, .ok (), fun _ => .ok (), .ok ()⟩

/-- Witness for C7: from row 2 with a fresh counter, ample fuel and an
empty cache, the loop stops at row 5 having visited only rows 2..4. -/
theorem indexLoop_empty_halt_spec_witness :
    ∃ res' st' tr',
      indexLoop allEmptyEnv ⟨none, false, true⟩ .a 10 2 0 ⟨0, 0, 0, 0, []⟩
        ⟨none, emptyCache⟩ [] = .ok (res', st', tr') ∧
      (∀ r, Ev.rowStart r ∈ tr' →
        Ev.rowStart r ∈ ([] : List Ev) ∨ (2 ≤ r ∧ r ≤ 2 + 2)) ∧
      (4 ≤ 10 → 0 = 0 → Ev.stopEmpty (2 + 3) ∈ tr') := by
  exact (indexLoop_empty_halt_spec allEmptyEnv ⟨none, false, true⟩ .a 2 rfl
    (fun m _ _ => ⟨rfl, rfl, rfl⟩)).1 10 0 ⟨0, 0, 0, 0, []⟩
    ⟨none, emptyCache⟩ []
    (fun m _ _ => by simp [SentTrueAt, cacheFast])

/-! ### C10: dry runs still mutate and persist the cache -/

lemma setCachedRow_persists (pk : Profile) (row : Nat) (d : CacheEntry)
    (s : CacheState) :
    (setCachedRow pk row d s).mem = some (setCachedRow pk row d s).disk := by
  unfold setCachedRow saveCache loadCache
  cases h : s.mem <;> simp [h]

/-- The dry-run branch of the verifier's row processing: a row with no
cache entry, a matching "Gusto Sent" flag, no completed marker and a
non-empty name reaches the cache update, then the dry-run short-circuit. -/
lemma verifyRow_dryRun (re : VerifyRowEnv) (cfg : VerifyCfg) (pk : Profile)
    (row : Nat) (st0 : CacheState) (s cv nm : String)
    (hnc : getVal pk row st0 = none)
    (hbs : re.bringSheets = .ok ())
    (hsent : re.readSent = .ok s)
    (hsv : lowerStr s = lowerStr cfg.statusValue)
    (hcomp : re.readCompleted = .ok cv)
    (hcv : ¬ (cv ≠ "" ∧ lowerStr cv = "yes"))
    (hname : re.readName = .ok nm) (hnm : nm ≠ "") :
    verifyRow re cfg pk row true st0 =
      ⟨none,
       setCachedRow pk row ⟨some true, some nm, none, none, none⟩
         (getCachedRow pk row st0).2,
       [.vCacheSet, .vDryRunSkip]⟩ := by
  have hc1 : (getCachedRow pk row st0).1 = none := hnc
  unfold verifyRow
  simp [hc1, hbs, hsent, hsv, hcomp, hcv, hname, hnm]

/-- C10: with the dry-run option set, a readable row still mutates and
persists the cache while performing no workflow step and no sheet write.
In the orchestrator the iteration reduces to a `processed` continuation
whose only events are `rowStart`, `cacheSet` and `dryRunSkip` (no
`workflow`, no `sheetWrite`), yet the row's full name is in the cache and
the cache is persisted; in the verifier the row's trace is exactly
`cacheSet` then `dryRunSkip` (no check, no write), yet `sent = true` and
the name are cached and persisted. -/
theorem dryRun_cache_effects :
    (∀ (env : Nat → RowEnv) (opts : IndexOpts) (pk : Profile)
      (fuel row c : Nat) (res : RunResults) (st : CacheState) (tr : List Ev)
      (con : Contractor),
      BodyGuard opts row c → ¬ SentTrueAt opts pk st row →
      (env row).bringSheets = .ok () → (env row).isCompleted = .ok false →
      (env row).readRow = .ok (some con) → opts.dryRun = true →
      indexLoop env opts pk (fuel + 1) row c res st tr =
        indexLoop env opts pk fuel (row + 1) 0
          { res with processed := res.processed + 1 }
          (setCachedRow pk row ⟨none, some con.fullName, none, none, none⟩
            (cacheFast opts pk row st).2)
          (tr ++ [.rowStart row, .cacheSet row, .dryRunSkip row]) ∧
      (∀ r run, Ev.workflow r run ∉
        [Ev.rowStart row, Ev.cacheSet row, Ev.dryRunSkip row]) ∧
      (∀ r, Ev.sheetWrite r ∉
        [Ev.rowStart row, Ev.cacheSet row, Ev.dryRunSkip row]) ∧
      ((getVal pk row
          (setCachedRow pk row ⟨none, some con.fullName, none, none, none⟩
            (cacheFast opts pk row st).2)).bind (·.name)) =
        some con.fullName ∧
      (setCachedRow pk row ⟨none, some con.fullName, none, none, none⟩
        (cacheFast opts pk row st).2).mem =
        some (setCachedRow pk row
          ⟨none, some con.fullName, none, none, none⟩
          (cacheFast opts pk row st).2).disk) ∧
    (∀ (re : VerifyRowEnv) (cfg : VerifyCfg) (pk : Profile) (row : Nat)
      (st0 : CacheState) (s cv nm : String),
      getVal pk row st0 = none →
      re.bringSheets = .ok () →
      re.readSent = .ok s → lowerStr s = lowerStr cfg.statusValue →
      re.readCompleted = .ok cv → ¬ (cv ≠ "" ∧ lowerStr cv = "yes") →
      re.readName = .ok nm → nm ≠ "" →
      verifyRow re cfg pk row true st0 =
        ⟨none,
         setCachedRow pk row ⟨some true, some nm, none, none, none⟩
           (getCachedRow pk row st0).2,
         [.vCacheSet, .vDryRunSkip]⟩ ∧
      (∀ v, VEv.vWrite v ∉ [VEv.vCacheSet, VEv.vDryRunSkip]) ∧
      (∀ o, VEv.vCheck o ∉ [VEv.vCacheSet, VEv.vDryRunSkip]) ∧
      ((getVal pk row
          (setCachedRow pk row ⟨some true, some nm, none, none, none⟩
            (getCachedRow pk row st0).2)).bind (·.sent)) = some true ∧
      ((getVal pk row
          (setCachedRow pk row ⟨some true, some nm, none, none, none⟩
            (getCachedRow pk row st0).2)).bind (·.name)) = some nm ∧
      (setCachedRow pk row ⟨some true, some nm, none, none, none⟩
        (getCachedRow pk row st0).2).mem =
        some (setCachedRow pk row ⟨some true, some nm, none, none, none⟩
          (getCachedRow pk row st0).2).disk) := by
  constructor
  · intro env opts pk fuel row c res st tr con hguard hsent hbs hic hrr hdr
    refine ⟨indexLoop_step_dryRun env opts pk fuel row c res st tr con
        hguard hsent hbs hic hrr hdr, by simp, by simp, ?_, ?_⟩
    · rw [getVal_setCachedRow_same]
      simp [mergeEntry, ow]
    · exact setCachedRow_persists _ _ _ _
  · intro re cfg pk row st0 s cv nm hnc hbs hsent hsv hcomp hcv hname hnm
    refine ⟨verifyRow_dryRun re cfg pk row st0 s cv nm hnc hbs hsent hsv
        hcomp hcv hname hnm, by simp, by simp, ?_, ?_, ?_⟩
    · rw [getVal_setCachedRow_same]
      simp [mergeEntry, ow]
    · rw [getVal_setCachedRow_same]
      simp [mergeEntry, ow]
    · exact setCachedRow_persists _ _ _ _

/-- Witness for C10 at concrete inputs: a dry orchestrator iteration on a
readable row, and a dry verifier row, both leave the full name (and for
the verifier `sent = true`) in a persisted cache without any workflow or
sheet-write event. -/
theorem dryRun_cache_effects_witness :
    (indexLoop (fun _ => okRowEnv c2Contractor) ⟨none, true, true⟩ .a 1 2 0
        ⟨0, 0, 0, 0, []⟩ ⟨none, emptyCache⟩ [] =
      indexLoop (fun _ => okRowEnv c2Contractor) ⟨none, true, true⟩ .a 0 3 0
        ⟨1, 0, 0, 0, []⟩
        (setCachedRow .a 2 ⟨none, some "Caden Lepple", none, none, none⟩
          (cacheFast ⟨none, true, true⟩ .a 2 ⟨none, emptyCache⟩).2)
        [Ev.rowStart 2, Ev.cacheSet 2, Ev.dryRunSkip 2]) ∧
    verifyRow
        ⟨.ok (), .ok "Yes", .ok "", .ok "Caden Lepple", none, ⟨false, none⟩,
          false⟩
        ⟨"Yes", "YES", "NO"⟩ .a 2 true ⟨none, emptyCache⟩ =
      ⟨none,
       setCachedRow .a 2 ⟨some true, some "Caden Lepple", none, none, none⟩
         (getCachedRow .a 2 ⟨none, emptyCache⟩).2,
       [.vCacheSet, .vDryRunSkip]⟩ := by
  have h1 := dryRun_cache_effects.1 (fun _ => okRowEnv c2Contractor)
    ⟨none, true, true⟩ .a 0 2 0 ⟨0, 0, 0, 0, []⟩ ⟨none, emptyCache⟩ []
    c2Contractor (Or.inl ⟨rfl, by decide⟩)
    (by simp [SentTrueAt, cacheFast]) rfl rfl rfl rfl
  have h2 := dryRun_cache_effects.2
    ⟨.ok (), .ok "Yes", .ok "", .ok "Caden Lepple", none, ⟨false, none⟩,
      false⟩
    ⟨"Yes", "YES", "NO"⟩ .a 2 ⟨none, emptyCache⟩ "Yes" "" "Caden Lepple"
    rfl rfl rfl rfl rfl (by simp) rfl (by decide)
  exact ⟨h1.1, h2.1⟩

end GustoAutomate
